import Mathlib

/- The Batteries rational arithmetic operations are marked irreducible (their
runtime versions are extern).  Kernel-checked evaluation of the embedding on
concrete inputs (the witness and counterexample theorems below) needs them to
unfold, so their reducibility is restored for this file. -/
set_option allowUnsafeReducibility true
attribute [local semireducible] Rat.add Rat.mul Rat.sub Rat.inv Rat.div
attribute [local semireducible] Rat.ofScientific

/-!
Verification of the dependency-arbitrage solver (`scripts/dependency-arb.py`).

The script reads one JSON payload from stdin, builds a boolean constraint model
over condition outcomes, runs a cutting-plane robust-optimization loop
alternating a CP feasibility oracle (OR-Tools CP-SAT) with a continuous
portfolio LP (CBC), and prints a JSON result envelope.

Shallow embedding conventions:
* Python floats are modelled as `ℚ` (exact rational arithmetic).
* JSON scalar values that flow through Python coercions (`float`, `int`,
  truthiness) are modelled by the inductive `JVal`.  Strings that Python's
  `float()` parses are carried with their parsed value (`jstrInt`, `jstrFloat`);
  `jstrBad` covers all other strings.
* Fallible Python code (the `int(...)` conversions and `KeyError`-raising dict
  lookups in `_add_constraints`) is modelled in `Except PyErr`.
* The two opaque solver backends (CP-SAT and CBC) are modelled as oracle
  parameters.  They receive exactly the numeric model the script hands to the
  real solvers and return an optional assignment / solution.  Feasibility of a
  returned LP solution (the documented contract of CBC, which the script
  trusts by accepting both OPTIMAL and FEASIBLE) is `lpContract`.
* Python's `**` (used only in the optional fee-curve branch, where the
  exponent is a float and the result may be irrational) is an abstract
  parameter `powq : ℚ → ℚ → ℚ`.
* Wall-clock time (`runtimeMs`, `time.time()`) is outside the embedding; the
  emitted opportunity record carries the other emitted fields.
-/

/-- JSON scalar values as seen by the Python coercions in the script.
`jstrInt n` is a string that `int()` and `float()` both parse (an integer
literal), `jstrFloat q` a string only `float()` parses, `jstrBad s` a string
neither parses (including the empty string).  `jarr`/`jobj` carry only their
truthiness (non-emptiness), which is all the script ever uses of them in the
positions where a scalar is expected. -/
inductive JVal where
  | jnull : JVal
  | jbool (b : Bool) : JVal
  | jnum (q : ℚ) : JVal
  | jstrInt (n : ℤ) : JVal
  | jstrFloat (q : ℚ) : JVal
  | jstrBad (s : String) : JVal
  | jarr (nonempty : Bool) : JVal
  | jobj (nonempty : Bool) : JVal
deriving DecidableEq, Repr

/-- Python exceptions that the script can actually raise. -/
inductive PyErr where
  | keyError (k : String) : PyErr
  | valueError : PyErr
  | typeError : PyErr
deriving DecidableEq, Repr

/-- Python truthiness `bool(v)` of a JSON scalar. -/
def pyTruthy : JVal → Bool
  | .jnull => false
  | .jbool b => b
  | .jnum q => q ≠ 0
  | .jstrInt _ => true
  | .jstrFloat _ => true
  | .jstrBad s => s ≠ ("")
  | .jarr ne => ne
  | .jobj ne => ne

/-- Python `float(v)`: `none` models a raised `TypeError`/`ValueError`.
`float(True) = 1.0`, `float(False) = 0.0`; numeric strings parse. -/
def pyFloat : JVal → Option ℚ
  | .jnull => none
  | .jbool b => some (if b then 1 else 0)
  | .jnum q => some q
  | .jstrInt n => some (n : ℚ)
  | .jstrFloat q => some q
  | .jstrBad _ => none
  | .jarr _ => none
  | .jobj _ => none

/-- Truncation toward zero, the behaviour of Python `int()` on a float. -/
def pyTrunc (q : ℚ) : ℤ :=
  if q < 0 then q.ceil else q.floor

/-- Python `int(v)`: raises on `None`, non-integer-literal strings and
containers; truncates floats toward zero. -/
def pyInt : JVal → Except PyErr ℤ
  | .jnull => .error .typeError
  | .jbool b => .ok (if b then 1 else 0)
  | .jnum q => .ok (pyTrunc q)
  | .jstrInt n => .ok n
  | .jstrFloat _ => .error .valueError
  | .jstrBad _ => .error .valueError
  | .jarr _ => .error .typeError
  | .jobj _ => .error .typeError

/-- Python 3 `round()` to an integer: round-half-to-even (banker's rounding). -/
def pyRound (q : ℚ) : ℤ :=
  let f := q.floor
  let r := q - (f : ℚ)
  if r < 1/2 then f
  else if r > 1/2 then f + 1
  else if f % 2 = 0 then f else f + 1

/-- Python `a or b` on JSON scalars (returns `a` when truthy, else `b`). -/
def pyOr (a b : JVal) : JVal :=
  if pyTruthy a then a else b

/-- Source `_safe_float` (dependency-arb.py lines 22-28): `None` and
unconvertible values fall back to the default. -/
def _safe_float (v : JVal) (default : ℚ := 0) : ℚ :=
  match v with
  | .jnull => default
  | v => (pyFloat v).getD default

/-- The idiom `_safe_float(d.get(key, dflt))`: a missing field supplies the
numeric default before coercion. -/
def sfGet (field : Option JVal) (dflt : ℚ) : ℚ :=
  _safe_float (field.getD (JVal.jnum dflt)) 0

/-- One entry of the input `conditions` array (only its `id` is read).
A missing or null `id` is `none`. -/
structure RawCond where
  id : Option String
deriving DecidableEq, Repr

/-- One entry of the input `groups` array.  The script reads `type` (a
string when present), `k` (any JSON scalar, fed to `int()`), and
`conditionIds` (a string list when present). -/
structure RawGroup where
  type : Option String
  k : Option JVal
  conditionIds : Option (List String)
deriving DecidableEq, Repr

/-- One entry of the input `relations` array: `type`, and the four optional
condition references `if`/`then`/`a`/`b` (renamed, `if`/`then` being Lean
keywords). -/
structure RawRel where
  type : Option String
  ifId : Option String
  thenId : Option String
  aId : Option String
  bId : Option String
deriving DecidableEq, Repr

/-- The `settings` object.  Every field is an optional raw JSON scalar; the
script coerces each at its point of use. -/
structure Settings where
  minProfit : Option JVal := none
  minDepth : Option JVal := none
  minDepthUsd : Option JVal := none
  allowSells : Option JVal := none
  maxLegs : Option JVal := none
  maxNotional : Option JVal := none
  feeBps : Option JVal := none
  slippageBps : Option JVal := none
  feeCurveRate : Option JVal := none
  feeCurveExponent : Option JVal := none
  oracleTimeout : Option JVal := none
  maxIter : Option JVal := none
  tolerance : Option JVal := none
  scale : Option JVal := none
deriving DecidableEq, Repr

/-- One entry of the input `tokens` array.  `tokenId`, `conditionId` and
`outcome` are accessed with `tok[...]` and are modelled as present strings;
the quote fields go through `_safe_float(tok.get(...))` and stay raw. -/
structure Token where
  tokenId : String
  conditionId : String
  outcome : String
  ask : Option JVal := none
  bid : Option JVal := none
  askSize : Option JVal := none
  bidSize : Option JVal := none
  feeBps : Option JVal := none
  label : Option JVal := none
  question : Option JVal := none
deriving DecidableEq, Repr

/-- The parsed JSON payload.  `truthy` models Python `bool(data)` (a dict may
hold keys other than the five the script reads, so truthiness is carried
explicitly).  A field that is missing or JSON-null is `none` (both are handled
identically by the `data.get(k) or default` idiom). -/
structure InputData where
  truthy : Bool
  conditions : Option (List RawCond) := none
  tokens : Option (List Token) := none
  groups : Option (List RawGroup) := none
  relations : Option (List RawRel) := none
  settings : Option Settings := none
deriving DecidableEq, Repr

/-- An Outcome: the dict `{cid: 0/1 for cid in cond_ids}` is modelled as the
association list over `cond_ids` in construction order; equality of two such
lists built over the same `cond_ids` coincides with Python dict (value)
equality over the full condition-to-truth mapping. -/
abbrev Outcome := List (String × Bool)

/-- Build the outcome dict from a solver assignment (lines 83 / 123). -/
def mkOutcome (condIds : List String) (asg : String → Bool) : Outcome :=
  condIds.map fun c => (c, asg c)

/-- Python `outcome.get(cid, 0)` (truth value of a condition, default false). -/
def oget (o : Outcome) (cid : String) : Bool :=
  (o.lookup cid).getD false

/-- A 0/1 truth value as a rational. -/
def bq (b : Bool) : ℚ := if b then 1 else 0

/-- Python `str.lower()` restricted to ASCII case mapping (the group and
relation type strings).  Defined over the character list so that it reduces
definitionally (`String.toLower` does not). -/
def pyLower (s : String) : String := String.mk (s.toList.map Char.toLower)

/-- A linear cardinality/logical constraint over the boolean condition
variables, as produced by `_add_constraints` (lines 38-64).  Sums are over the
id list with multiplicity, exactly as `sum(x[i] for i in ids)`. -/
inductive CpCon where
  | sumEq (ids : List String) (k : ℤ)
  | sumLe (ids : List String) (k : ℤ)
  | sumGe (ids : List String) (k : ℤ)
  | imp (a b : String)
  | mutex (a b : String)
deriving DecidableEq, Repr

/-- Value of `sum(x[i] for i in ids)` under an assignment. -/
def sumIds (asg : String → Bool) (ids : List String) : ℤ :=
  (ids.map fun i => if asg i then (1 : ℤ) else 0).sum

/-- Satisfaction of one emitted constraint. -/
def conSat (asg : String → Bool) : CpCon → Bool
  | .sumEq ids k => sumIds asg ids = k
  | .sumLe ids k => sumIds asg ids ≤ k
  | .sumGe ids k => sumIds asg ids ≥ k
  | .imp a b => !asg a || asg b
  | .mutex a b => !(asg a && asg b)

/-- Constraints contributed by one group (lines 39-51).  A group with an empty
id list is skipped; `one_of`/`at_most`/`at_least` look every id up in the
variable dict `x`, so an id outside `cond_ids` raises `KeyError`; for
`at_most`/`at_least` the bound `k = int(group.get("k", 1))` is computed first
(so a bad `k` raises before the id lookup).  Unrecognized types are skipped. -/
def groupCon (condIds : List String) (g : RawGroup) : Except PyErr (List CpCon) :=
  let ids := g.conditionIds.getD []
  if ids = [] then .ok []
  else
    match pyLower (g.type.getD ("")) with
    | "one_of" =>
      match ids.find? (fun i => !(condIds.contains i)) with
      | some i => .error (.keyError i)
      | none => .ok [CpCon.sumEq ids 1]
    | "at_most" =>
      match pyInt (g.k.getD (JVal.jnum 1)) with
      | .error e => .error e
      | .ok k =>
        match ids.find? (fun i => !(condIds.contains i)) with
        | some i => .error (.keyError i)
        | none => .ok [CpCon.sumLe ids k]
    | "at_least" =>
      match pyInt (g.k.getD (JVal.jnum 1)) with
      | .error e => .error e
      | .ok k =>
        match ids.find? (fun i => !(condIds.contains i)) with
        | some i => .error (.keyError i)
        | none => .ok [CpCon.sumGe ids k]
    | _ => .ok []

/-- All group constraints, in input order. -/
def buildGroupCons (condIds : List String) : List RawGroup → Except PyErr (List CpCon)
  | [] => .ok []
  | g :: gs =>
    match groupCon condIds g with
    | .error e => .error e
    | .ok cs =>
      match buildGroupCons condIds gs with
      | .error e => .error e
      | .ok rest => .ok (cs ++ rest)

/-- Constraints contributed by one relation (lines 53-64).  `implies` uses
`rel.get("if")`/`rel.get("then")`, `mutual_exclusive` uses `a`/`b`; a missing
or unknown reference makes the `a in x and b in x` guard fail and the relation
is silently dropped. -/
def relCon (condIds : List String) (r : RawRel) : List CpCon :=
  match pyLower (r.type.getD ("")) with
  | "implies" =>
    match r.ifId, r.thenId with
    | some a, some b =>
      if condIds.contains a && condIds.contains b then [CpCon.imp a b] else []
    | _, _ => []
  | "mutual_exclusive" =>
    match r.aId, r.bId with
    | some a, some b =>
      if condIds.contains a && condIds.contains b then [CpCon.mutex a b] else []
    | _, _ => []
  | _ => []

/-- All relation constraints, in input order (relations never raise). -/
def relCons (condIds : List String) : List RawRel → List CpCon
  | [] => []
  | r :: rs => relCon condIds r ++ relCons condIds rs

/-- Source `_add_constraints` (lines 38-64), as the list of constraints added
to the CP model: groups first, then relations. -/
def _add_constraints (condIds : List String) (groups : List RawGroup)
    (rels : List RawRel) : Except PyErr (List CpCon) :=
  match buildGroupCons condIds groups with
  | .error e => .error e
  | .ok gcs => .ok (gcs ++ relCons condIds rels)

/-- Objective sense of a CP solve. -/
inductive ObjDir where
  | minimize
  | maximize
deriving DecidableEq, Repr

/-- The opaque CP-SAT backend: it receives the variable names, the constraint
list, the objective (sense and integer linear terms) and the time budget, and
returns a boolean assignment or `none` (infeasible / timeout). -/
def CPOracle : Type :=
  List String → List CpCon → ObjDir → List (String × ℤ) → ℚ → Option (String → Bool)

/-- Source `_solve_outcome` (lines 67-83): extreme-outcome mode, objective
`sum(x)` minimized or maximized according to `target`. -/
def _solve_outcome (cp : CPOracle) (condIds : List String)
    (groups : List RawGroup) (rels : List RawRel) (target : String)
    (timeout : ℚ) : Except PyErr (Option Outcome) :=
  match _add_constraints condIds groups rels with
  | .error e => .error e
  | .ok cons =>
    let dir := if target = ("min") then ObjDir.minimize else ObjDir.maximize
    match cp condIds cons dir (condIds.map fun c => (c, (1 : ℤ))) timeout with
    | none => .ok none
    | some asg => .ok (some (mkOutcome condIds asg))

/-- A position record as built in `_solve_portfolio` (lines 240-251). -/
structure Position where
  tokenId : String
  conditionId : String
  outcome : String
  buy : ℚ
  sell : ℚ
  ask : ℚ
  bid : ℚ
  feeBps : ℚ
  delta : ℚ
  label : JVal
deriving DecidableEq, Repr

/-- Iteration order of `coeffs.items()`: dict insertion order, i.e. the first
occurrence of each id in `cond_ids`. -/
def pyDictKeys (l : List String) : List String :=
  l.foldl (fun acc c => if acc.contains c then acc else acc ++ [c]) []

/-- The adversary coefficient for one condition (lines 97-107): sum over the
candidate positions on that condition of `+delta` (YES side) or `-delta`
(otherwise); positions on conditions outside the model are skipped. -/
def worstCoeff (condIds : List String) (positions : List Position)
    (cid : String) : ℚ :=
  if condIds.contains cid then
    positions.foldl
      (fun acc p =>
        if p.conditionId = cid then
          if p.outcome = ("YES") then acc + p.delta else acc - p.delta
        else acc)
      0
  else 0

/-- The integer objective terms handed to the CP solver in adversary mode
(lines 109-113): coefficients with `abs(coeff) < 1e-12` are skipped, the rest
are scaled by `scale` and rounded (Python `round`, half-to-even). -/
def worstObjTerms (condIds : List String) (positions : List Position)
    (scale : ℤ) : List (String × ℤ) :=
  (pyDictKeys condIds).filterMap fun cid =>
    let coeff := worstCoeff condIds positions cid
    if |coeff| < 1 / 1000000000000 then none
    else some (cid, pyRound (coeff * (scale : ℚ)))

/-- Source `_solve_worst_outcome` (lines 86-123). -/
def _solve_worst_outcome (cp : CPOracle) (condIds : List String)
    (groups : List RawGroup) (rels : List RawRel) (positions : List Position)
    (timeout : ℚ) (scale : ℤ) : Except PyErr (Option Outcome) :=
  match _add_constraints condIds groups rels with
  | .error e => .error e
  | .ok cons =>
    match cp condIds cons ObjDir.minimize (worstObjTerms condIds positions scale) timeout with
    | none => .ok none
    | some asg => .ok (some (mkOutcome condIds asg))

/-- Source `_evaluate_payoff` (lines 126-135): payoff of a position list under
an outcome, `delta * truth` for YES tokens, `delta * (1 - truth)` otherwise. -/
def _evaluate_payoff : List Position → Outcome → ℚ
  | [], _ => 0
  | p :: ps, o =>
    (if p.outcome = ("YES") then p.delta * bq (oget o p.conditionId)
     else p.delta * (1 - bq (oget o p.conditionId)))
      + _evaluate_payoff ps o

/-- Output-filter epsilon for positions (line 238, `1e-9`). -/
def eps9 : ℚ := 1 / 1000000000

/-- Output-filter epsilon for legs (lines 353/361, `1e-8`). -/
def eps8 : ℚ := 1 / 100000000

/-- Bound of the LP profit variable (line 212, `1e6`). -/
def bigM : ℚ := 1000000

/-- `allow_sells = bool(settings.get("allowSells", True))` (lines 149/279). -/
def allowSellsS (s : Settings) : Bool :=
  pyTruthy (s.allowSells.getD (JVal.jbool true))

/-- Usable (ask, bid) depth of one token inside `_solve_portfolio`
(lines 155-163): sizes are zeroed where the corresponding price is
non-positive, and bid depth is zeroed when selling is disabled. -/
def adjSizes (allowS : Bool) (t : Token) : ℚ × ℚ :=
  let askSize := sfGet t.askSize 0
  let bidSize := sfGet t.bidSize 0
  let askSize := if sfGet t.ask 0 ≤ 0 then 0 else askSize
  let bidSize := if sfGet t.bid 0 ≤ 0 then 0 else bidSize
  let bidSize := if allowS then bidSize else 0
  (askSize, bidSize)

/-- Source `_calc_fee` (lines 184-192).  `powq` abstracts Python's `**`
(the curve exponent is a float, so the value may be irrational). -/
def _calc_fee (powq : ℚ → ℚ → ℚ) (curveRate curveExp : ℚ)
    (price feeBps : ℚ) : ℚ :=
  if price ≤ 0 ∨ feeBps ≤ 0 then 0
  else if curveRate > 0 ∧ curveExp > 0 then
    let baseMultiplier := feeBps / 1000
    let p := max 0 (min 1 price)
    let curve := curveRate * powq (p * (1 - p)) curveExp
    p * baseMultiplier * curve
  else price * (feeBps / 10000)

/-- Effective unit buy cost of a token (lines 196-200): ask + fee + slippage. -/
def buyCostOf (powq : ℚ → ℚ → ℚ) (s : Settings) (t : Token) : ℚ :=
  let feeBps := max (sfGet t.feeBps 0) (sfGet s.feeBps 0)
  let slip := sfGet s.slippageBps 0 / 10000
  let ask := sfGet t.ask 0
  ask + _calc_fee powq (sfGet s.feeCurveRate 0) (sfGet s.feeCurveExponent 0) ask feeBps
    + ask * slip

/-- Effective unit sell revenue of a token (lines 196-201): bid - fee - slippage. -/
def sellRevOf (powq : ℚ → ℚ → ℚ) (s : Settings) (t : Token) : ℚ :=
  let feeBps := max (sfGet t.feeBps 0) (sfGet s.feeBps 0)
  let slip := sfGet s.slippageBps 0 / 10000
  let bid := sfGet t.bid 0
  bid - _calc_fee powq (sfGet s.feeCurveRate 0) (sfGet s.feeCurveExponent 0) bid feeBps
    - bid * slip

/-- Payoff coefficient of one token under one outcome (lines 217-219):
`yes` for a YES token, `1 - yes` otherwise, with `yes = outcome.get(cid, 0)`. -/
def coeffQ (o : Outcome) (t : Token) : ℚ :=
  if t.outcome = ("YES") then bq (oget o t.conditionId)
  else 1 - bq (oget o t.conditionId)

/-- The numeric LP model that `_solve_portfolio` hands to the CBC backend:
variable bounds, cost/revenue coefficients, notional coefficients, the
max-legs cap, the notional cap and one payoff-coefficient row per outcome.
The backend sees exactly these numbers (never the raw JSON). -/
structure LPProb where
  boundsBuy : List ℚ
  boundsSell : List ℚ
  buyCosts : List ℚ
  sellRevs : List ℚ
  asks : List ℚ
  payoffCoeffs : List (List ℚ)
  maxLegs : ℤ
  maxNotional : ℚ
deriving DecidableEq, Repr

/-- A solution returned by the LP backend: values of the buy/sell/use
variables and of the profit variable. -/
structure LPSol where
  buys : List ℚ
  sells : List ℚ
  uses : List ℚ
  profit : ℚ
deriving DecidableEq, Repr

/-- The opaque CBC backend: `available` models `CreateSolver("CBC")`
returning a handle (line 143-145), `solve` returns a solution or `none`. -/
structure LPOracle where
  available : Bool
  solve : LPProb → Option LPSol

/-- Pairwise conjunction over two lists; false on length mismatch. -/
def all2 (f : α → β → Bool) : List α → List β → Bool
  | [], [] => true
  | a :: as, b :: bs => f a b && all2 f as bs
  | _, _ => false

/-- Pairwise conjunction over three lists; false on length mismatch. -/
def all3 (f : α → β → γ → Bool) : List α → List β → List γ → Bool
  | [], [], [] => true
  | a :: as, b :: bs, c :: cs => f a b c && all3 f as bs cs
  | _, _, _ => false

/-- `sum((buy_i - sell_i) * coeff_i)`: the payoff expression of one outcome
row at a solution (line 222; skipping zero coefficients in the source changes
nothing in the sum). -/
def payoffDot : List ℚ → List ℚ → List ℚ → ℚ
  | c :: cs, b :: bs, s :: ss => (b - s) * c + payoffDot cs bs ss
  | _, _, _ => 0

/-- The cost expression at a solution (lines 194-207):
`sum(buy_i * buyCost_i + sell_i * (-sellRev_i))`. -/
def costDot : List ℚ → List ℚ → List ℚ → List ℚ → ℚ
  | bc :: bcs, sr :: srs, b :: bs, s :: ss =>
    b * bc + s * (-sr) + costDot bcs srs bs ss
  | _, _, _, _ => 0

/-- The notional expression (lines 204-205): `sum(buy_i * ask_i)` over tokens
with positive ask. -/
def notionalDot : List ℚ → List ℚ → ℚ
  | b :: bs, a :: as => (if a > 0 then b * a else 0) + notionalDot bs as
  | _, _ => 0

/-- Feasibility of an LP solution for the model `_solve_portfolio` builds:
variable bounds (lines 165-166, 212), max-legs gating (lines 170-177),
notional cap (lines 209-210) and one robust-profit constraint per outcome
(lines 214-224).  This is the contract the script trusts CBC to satisfy when
it reports OPTIMAL or FEASIBLE. -/
def lpFeasibleB (p : LPProb) (s : LPSol) : Bool :=
  all2 (fun b hi => decide (0 ≤ b ∧ b ≤ hi)) s.buys p.boundsBuy &&
  all2 (fun q hi => decide (0 ≤ q ∧ q ≤ hi)) s.sells p.boundsSell &&
  (if p.maxLegs > 0 then
    all3 (fun u b hi => decide ((u = 0 ∨ u = 1) ∧ b ≤ hi * u)) s.uses s.buys p.boundsBuy &&
    all3 (fun u q hi => decide (q ≤ hi * u)) s.uses s.sells p.boundsSell &&
    decide (s.uses.sum ≤ (p.maxLegs : ℚ))
   else true) &&
  (if p.maxNotional > 0 ∧ p.asks.any (fun a => decide (0 < a)) then
    decide (notionalDot s.buys p.asks ≤ p.maxNotional)
   else true) &&
  decide (-bigM ≤ s.profit ∧ s.profit ≤ bigM) &&
  p.payoffCoeffs.all fun row =>
    decide (payoffDot row s.buys s.sells
      - costDot p.buyCosts p.sellRevs s.buys s.sells ≥ s.profit)

/-- The LP backend contract: any solution it returns is feasible for the
model it was given. -/
def lpContract (lp : LPOracle) : Prop :=
  ∀ p s, lp.solve p = some s → lpFeasibleB p s = true

/-- `max_legs = int(settings.get("maxLegs", 0) or 0)` (line 147). -/
def maxLegsExpr (s : Settings) : JVal :=
  let v := s.maxLegs.getD (JVal.jnum 0)
  if pyTruthy v then v else JVal.jnum 0

/-- Assemble the numeric LP model from the token list, settings and scenario
set (lines 147-226).  The only fallible step is the `int(...)` conversion of
`maxLegs`. -/
def buildLPProb (powq : ℚ → ℚ → ℚ) (tokens : List Token) (s : Settings)
    (outcomes : List Outcome) : Except PyErr LPProb :=
  match pyInt (maxLegsExpr s) with
  | .error e => .error e
  | .ok maxLegs =>
    let allowS := allowSellsS s
    .ok
      { boundsBuy := tokens.map fun t => (adjSizes allowS t).1
        boundsSell := tokens.map fun t => (adjSizes allowS t).2
        buyCosts := tokens.map (buyCostOf powq s)
        sellRevs := tokens.map (sellRevOf powq s)
        asks := tokens.map fun t => sfGet t.ask 0
        payoffCoeffs := outcomes.map fun o => tokens.map (coeffQ o)
        maxLegs := maxLegs
        maxNotional := sfGet s.maxNotional 0 }

/-- One emitted position record (lines 240-251). -/
def mkPos (t : Token) (b s : ℚ) : Position :=
  { tokenId := t.tokenId
    conditionId := t.conditionId
    outcome := t.outcome
    buy := b
    sell := s
    ask := sfGet t.ask 0
    bid := sfGet t.bid 0
    feeBps := sfGet t.feeBps 0
    delta := b - s
    label := pyOr (t.label.getD JVal.jnull) (t.question.getD JVal.jnull) }

/-- The position list (lines 234-251): solution values below `1e-9` on both
sides are dropped. -/
def mkPositions : List Token → List ℚ → List ℚ → List Position
  | t :: ts, b :: bs, s :: ss =>
    let rest := mkPositions ts bs ss
    if b ≤ eps9 ∧ s ≤ eps9 then rest else mkPos t b s :: rest
  | _, _, _ => []

/-- Count of solution entries suppressed by the `1e-9` output filter. -/
def droppedN : List Token → List ℚ → List ℚ → ℕ
  | _ :: ts, b :: bs, s :: ss =>
    (if b ≤ eps9 ∧ s ≤ eps9 then 1 else 0) + droppedN ts bs ss
  | _, _, _ => 0

/-- Source `_solve_portfolio` (lines 138-254): returns `none` when the CBC
backend is unavailable or reports no solution, otherwise the profit value,
the filtered position list and the realized cost. -/
def _solve_portfolio (lp : LPOracle) (powq : ℚ → ℚ → ℚ)
    (outcomes : List Outcome) (tokens : List Token) (s : Settings) :
    Except PyErr (Option (ℚ × List Position × ℚ)) :=
  if lp.available = false then .ok none
  else
    match buildLPProb powq tokens s outcomes with
    | .error e => .error e
    | .ok prob =>
      match lp.solve prob with
      | none => .ok none
      | some sol =>
        .ok (some (sol.profit, mkPositions tokens sol.buys sol.sells,
          costDot prob.buyCosts prob.sellRevs sol.buys sol.sells))

/-- `settings = data.get("settings") or {}` (line 269; an absent, null or
empty settings object behaves as the all-defaults object). -/
def settingsOf (d : InputData) : Settings :=
  d.settings.getD {}

/-- `tokens = data.get("tokens") or []` (line 264). -/
def tokensOf (d : InputData) : List Token :=
  d.tokens.getD []

/-- `data.get("groups") or []` (line 266). -/
def groupsOf (d : InputData) : List RawGroup :=
  d.groups.getD []

/-- `data.get("relations") or []` (line 267). -/
def relationsOf (d : InputData) : List RawRel :=
  d.relations.getD []

/-- `cond_ids = [c.get("id") for c in conditions if c.get("id")]` (line 271):
ids that are present and truthy (non-empty). -/
def condIdsOf (d : InputData) : List String :=
  (d.conditions.getD []).filterMap fun c =>
    match c.id with
    | some s => if s = ("") then none else some s
    | none => none

/-- `min_profit = _safe_float(settings.get("minProfit", 0.0))` (line 276). -/
def minProfitOf (d : InputData) : ℚ := sfGet (settingsOf d).minProfit 0

/-- `min_depth` (line 277). -/
def minDepthOf (d : InputData) : ℚ := sfGet (settingsOf d).minDepth 0

/-- `min_depth_usd` (line 278). -/
def minDepthUsdOf (d : InputData) : ℚ := sfGet (settingsOf d).minDepthUsd 0

/-- `tol = _safe_float(settings.get("tolerance", 1e-5))` (line 307). -/
def tolOf (d : InputData) : ℚ := sfGet (settingsOf d).tolerance (1 / 100000)

/-- `oracle_timeout = _safe_float(settings.get("oracleTimeout", 2.0))`. -/
def oracleTimeoutOf (d : InputData) : ℚ := sfGet (settingsOf d).oracleTimeout 2

/-- Depth filtering of one token (lines 282-299): sizes below `minDepth` are
zeroed, bid size is zeroed when selling is disabled, then (when a positive
`minDepthUsd` is configured) sizes whose notional is below it are zeroed; the
token's size fields are overwritten and the token is kept only if it has a
positive ask or bid. -/
def filterTok (minDepth minDepthUsd : ℚ) (allowS : Bool) (t : Token) :
    Option Token :=
  let ask := sfGet t.ask 0
  let bid := sfGet t.bid 0
  let askSize := sfGet t.askSize 0
  let bidSize := sfGet t.bidSize 0
  let askSize := if askSize < minDepth then 0 else askSize
  let bidSize := if bidSize < minDepth ∨ allowS = false then 0 else bidSize
  let askSize := if minDepthUsd > 0 ∧ ask * askSize < minDepthUsd then 0 else askSize
  let bidSize := if minDepthUsd > 0 ∧ bid * bidSize < minDepthUsd then 0 else bidSize
  if ask > 0 ∨ bid > 0 then
    some { t with askSize := some (JVal.jnum askSize),
                  bidSize := some (JVal.jnum bidSize) }
  else none

/-- The filtered token list (lines 281-299). -/
def filterTokens (minDepth minDepthUsd : ℚ) (allowS : Bool)
    (tokens : List Token) : List Token :=
  tokens.filterMap (filterTok minDepth minDepthUsd allowS)

/-- The filtered token list of a payload. -/
def filteredOf (d : InputData) : List Token :=
  filterTokens (minDepthOf d) (minDepthUsdOf d) (allowSellsS (settingsOf d))
    (tokensOf d)

/-- `if outcome and outcome not in outcomes: outcomes.append(outcome)`
(lines 313-314): append a produced outcome when truthy (non-empty) and not
already present by value equality. -/
def dedupApp (acc : List Outcome) (o? : Option Outcome) : List Outcome :=
  match o? with
  | some o => if o ≠ [] ∧ o ∉ acc then acc ++ [o] else acc
  | none => acc

/-- Seeding (lines 310-314): the extreme outcomes for targets `min` and `max`,
each kept only when truthy (non-empty) and not already present. -/
def seedOutcomes (cp : CPOracle) (condIds : List String)
    (groups : List RawGroup) (rels : List RawRel) (timeout : ℚ) :
    Except PyErr (List Outcome) :=
  match _solve_outcome cp condIds groups rels ("min") timeout with
  | .error e => .error e
  | .ok o1 =>
    match _solve_outcome cp condIds groups rels ("max") timeout with
    | .error e => .error e
    | .ok o2 => .ok (dedupApp (dedupApp [] o1) o2)

/-- The best candidate recorded so far (lines 320-323 / 331-335): profit,
filtered positions, realized cost, and the Scenario Set snapshot taken when
the candidate was recorded. -/
structure BestState where
  profit : ℚ
  positions : List Position
  cost : ℚ
  outcomesSnap : List Outcome
deriving DecidableEq, Repr

/-- State of the robust loop: the best candidate and the current Scenario Set. -/
structure LoopState where
  best : BestState
  outcomes : List Outcome
deriving DecidableEq, Repr

/-- Recording of an improved candidate (lines 331-335): the best state is
replaced, with a snapshot of the current Scenario Set, exactly when the new
profit strictly exceeds the recorded one. -/
def bestUpd (st : LoopState) (profit : ℚ) (positions : List Position)
    (cost : ℚ) : BestState :=
  if profit > st.best.profit then
    { profit := profit, positions := positions, cost := cost,
      outcomesSnap := st.outcomes }
  else st.best

/-- One iteration of the robust loop (lines 326-345).  The boolean is true
when the loop continues (no `break`). -/
def loopBody (cp : CPOracle) (lp : LPOracle) (powq : ℚ → ℚ → ℚ)
    (condIds : List String) (groups : List RawGroup) (rels : List RawRel)
    (filtered : List Token) (s : Settings) (timeout tol : ℚ) (scale : ℤ)
    (st : LoopState) : Except PyErr (Bool × LoopState) :=
  match _solve_portfolio lp powq st.outcomes filtered s with
  | .error e => .error e
  | .ok none => .ok (false, st)
  | .ok (some (profit, positions, cost)) =>
    match _solve_worst_outcome cp condIds groups rels positions timeout scale with
    | .error e => .error e
    | .ok none => .ok (false, { best := bestUpd st profit positions cost,
                                outcomes := st.outcomes })
    | .ok (some worst) =>
      if _evaluate_payoff positions worst - cost + tol ≥ profit then
        .ok (false, { best := bestUpd st profit positions cost,
                      outcomes := st.outcomes })
      else
        .ok (true,
          { best := bestUpd st profit positions cost,
            outcomes :=
              if worst ∈ st.outcomes then st.outcomes
              else st.outcomes ++ [worst] })

/-- The robust loop, `for _ in range(max_iter)` (line 326).  Besides the final
state it reports how many times the body ran and whether the iteration budget
was exhausted without a `break`. -/
def runLoop (cp : CPOracle) (lp : LPOracle) (powq : ℚ → ℚ → ℚ)
    (condIds : List String) (groups : List RawGroup) (rels : List RawRel)
    (filtered : List Token) (s : Settings) (timeout tol : ℚ) (scale : ℤ) :
    ℕ → LoopState → Except PyErr (LoopState × ℕ × Bool)
  | 0, st => .ok (st, 0, true)
  | fuel + 1, st =>
    match loopBody cp lp powq condIds groups rels filtered s timeout tol scale st with
    | .error e => .error e
    | .ok (false, st') => .ok (st', 1, false)
    | .ok (true, st') =>
      match runLoop cp lp powq condIds groups rels filtered s timeout tol scale fuel st' with
      | .error e => .error e
      | .ok (stF, n, exh) => .ok (stF, n + 1, exh)

/-- One emitted leg (lines 351-368). -/
structure Leg where
  tokenId : String
  side : String
  price : ℚ
  shares : ℚ
  label : JVal
deriving DecidableEq, Repr

/-- The legs of the accepted candidate: a BUY leg per position with
`buy > 1e-8` and a SELL leg per position with `sell > 1e-8`. -/
def mkLegs : List Position → List Leg
  | [] => []
  | p :: ps =>
    (if p.buy > eps8 then
      [{ tokenId := p.tokenId, side := ("BUY"), price := p.ask,
         shares := p.buy, label := p.label }]
     else []) ++
    (if p.sell > eps8 then
      [{ tokenId := p.tokenId, side := ("SELL"), price := p.bid,
         shares := p.sell, label := p.label }]
     else []) ++
    mkLegs ps

/-- The emitted opportunity record (lines 370-377); the wall-clock
`runtimeMs` field and the constant inner `status` field are not modelled. -/
structure Opportunity where
  guaranteedProfit : ℚ
  cost : ℚ
  legs : List Leg
  outcomes : List Outcome
deriving DecidableEq, Repr

/-- The printed result envelope: `status: error` with a message, or
`status: ok` with an opportunities array. -/
inductive Envelope where
  | err (msg : String)
  | ok (opps : List Opportunity)
deriving DecidableEq, Repr

/-- Formatting of the accepted candidate (lines 351-377). -/
def mkOpp (b : BestState) : Opportunity :=
  { guaranteedProfit := b.profit, cost := b.cost,
    legs := mkLegs b.positions, outcomes := b.outcomesSnap }

/-- The solve pipeline of `main` (lines 257-345) up to the final acceptance
check: either an early envelope (empty input, no conditions, no usable
tokens, no feasible outcome) on the left, or the configured minimum profit
together with the final best candidate on the right. -/
def mainCore (cp : CPOracle) (lp : LPOracle) (powq : ℚ → ℚ → ℚ)
    (d : InputData) : Except PyErr (Envelope ⊕ ℚ × BestState) :=
  if d.truthy = false then .ok (.inl (.err ("empty input")))
  else if (condIdsOf d).length = 0 then .ok (.inl (.ok []))
  else if filteredOf d = [] then .ok (.inl (.ok []))
  else
    match pyInt ((settingsOf d).maxIter.getD (JVal.jnum 12)) with
    | .error e => .error e
    | .ok maxIter =>
      match pyInt ((settingsOf d).scale.getD (JVal.jnum 1000000)) with
      | .error e => .error e
      | .ok scale =>
        match seedOutcomes cp (condIdsOf d) (groupsOf d) (relationsOf d)
            (oracleTimeoutOf d) with
        | .error e => .error e
        | .ok outcomes =>
          if outcomes = [] then .ok (.inl (.err ("no feasible outcome")))
          else
            match runLoop cp lp powq (condIdsOf d) (groupsOf d) (relationsOf d)
                (filteredOf d) (settingsOf d) (oracleTimeoutOf d) (tolOf d)
                scale maxIter.toNat
                { best := { profit := -1000000000, positions := [],
                            cost := 0, outcomesSnap := outcomes },
                  outcomes := outcomes } with
            | .error e => .error e
            | .ok (stF, _, _) => .ok (.inr (minProfitOf d, stF.best))

/-- Source `main` (lines 257-379): the full pipeline including the final
minimum-profit acceptance check and formatting. -/
def mainOn (cp : CPOracle) (lp : LPOracle) (powq : ℚ → ℚ → ℚ)
    (d : InputData) : Except PyErr Envelope :=
  match mainCore cp lp powq d with
  | .error e => .error e
  | .ok (.inl env) => .ok env
  | .ok (.inr (minProfit, best)) =>
    if best.profit < minProfit then .ok (.ok [])
    else .ok (.ok [mkOpp best])

/-- Python `str.strip()` restricted to whitespace stripping. -/
def pyStrip (s : String) : String :=
  String.mk (((s.toList.dropWhile Char.isWhitespace).reverse.dropWhile
    Char.isWhitespace).reverse)

/-- The payload representing `{}` (falsy). -/
def emptyInput : InputData := { truthy := false }

/-- Source `_load_input` (lines 31-35): blank stdin yields `{}`; otherwise the
stripped text is parsed (`parse` abstracts `json.loads` on parseable input;
JSON syntax errors are outside this embedding). -/
def _load_input (parse : String → InputData) (stdin : String) : InputData :=
  let raw := pyStrip stdin
  if raw = ("") then emptyInput else parse raw

/-- The whole program: read stdin, solve, print the envelope. -/
def runProgram (cp : CPOracle) (lp : LPOracle) (powq : ℚ → ℚ → ℚ)
    (parse : String → InputData) (stdin : String) : Except PyErr Envelope :=
  mainOn cp lp powq (_load_input parse stdin)

deriving instance DecidableEq for Except

/-! Concrete instantiations used by the witness and counterexample theorems:
a trivial Python-power stand-in (the fee-curve branch is never active below),
a CP oracle returning the all-true assignment (which is the unique feasible
assignment under the `one_of` groups used below), and LP oracles answering a
single concrete model with a single concrete feasible solution. -/

/-- Stand-in for Python `**`; never consulted below (fee curve disabled). -/
def powq0 : ℚ → ℚ → ℚ := fun _ _ => 0

/-- CP oracle returning the all-true assignment. -/
def cpTrue : CPOracle := fun _ _ _ _ _ => some (fun _ => true)

/-- LP oracle that never finds a solution. -/
def lpNone : LPOracle := { available := true, solve := fun _ => none }

/-- Default LP model (used only as a `getD` fallback). -/
def probDflt : LPProb := ⟨[], [], [], [], [], [], 0, 0⟩

/-- The outcome where condition `c` is true. -/
def outC : Outcome := [(("c"), true)]

/-- A YES token on condition `c`, ask 1, depth 1. -/
def tokC1 : Token :=
  { tokenId := ("t"), conditionId := ("c"), outcome := ("YES"),
    ask := some (JVal.jnum 1), askSize := some (JVal.jnum 1) }

/-- Payload with one condition forced true, tolerance 0 and minProfit -1. -/
def dataC1 : InputData :=
  { truthy := true, conditions := some [⟨some ("c")⟩], tokens := some [tokC1],
    groups := some [⟨some ("one_of"), none, some [("c")]⟩],
    settings := some { minProfit := some (JVal.jnum (-1)),
                       tolerance := some (JVal.jnum 0),
                       maxIter := some (JVal.jnum 1) } }

/-- The LP model `_solve_portfolio` builds for `dataC1` and Scenario Set
`[outC]`. -/
def probC1 : LPProb :=
  ((buildLPProb powq0 (filteredOf dataC1) (settingsOf dataC1) [outC]).toOption).getD
    probDflt

/-- An optimal solution of `probC1` whose buy quantity sits exactly at the
`1e-9` output filter. -/
def solC1 : LPSol := { buys := [eps9], sells := [0], uses := [], profit := 0 }

/-- LP oracle answering exactly `probC1` with `solC1`. -/
def lpC1 : LPOracle :=
  { available := true, solve := fun p => if p = probC1 then some solC1 else none }

/-- Payload whose `one_of` group references the unknown id `zzz`. -/
def dataC2bad : InputData :=
  { truthy := true, conditions := some [⟨some ("a")⟩], tokens := some [tokC1],
    groups := some [⟨some ("one_of"), none, some [("a"), ("zzz")]⟩] }

/-- Well-formed payload with a relation referencing the unknown id `ghost`. -/
def dataC2ok : InputData :=
  { truthy := true, conditions := some [⟨some ("a")⟩], tokens := some [tokC1],
    relations := some [⟨some ("implies"), some ("a"), some ("ghost"), none, none⟩] }

/-- The malformed relation of `dataC2ok`. -/
def relGhost : RawRel := ⟨some ("implies"), some ("a"), some ("ghost"), none, none⟩

/-- Payload whose settings carry a non-numeric `maxIter`. -/
def dataC3bad : InputData :=
  { truthy := true, conditions := some [⟨some ("a")⟩], tokens := some [tokC1],
    settings := some { maxIter := some (JVal.jstrBad ("x")) } }

/-- A deep YES token on `c` (depth 10). -/
def tokDeep : Token :=
  { tokenId := ("t1"), conditionId := ("c"), outcome := ("YES"),
    ask := some (JVal.jnum (1/2)), askSize := some (JVal.jnum 10) }

/-- A shallow YES token on `c` (depth 1, below the configured minDepth 5). -/
def tokShallow : Token :=
  { tokenId := ("t2"), conditionId := ("c"), outcome := ("YES"),
    ask := some (JVal.jnum (1/2)), askSize := some (JVal.jnum 1) }

/-- Payload with one deep and one shallow token and `minDepth = 5`. -/
def dataW : InputData :=
  { truthy := true, conditions := some [⟨some ("c")⟩],
    tokens := some [tokDeep, tokShallow],
    groups := some [⟨some ("one_of"), none, some [("c")]⟩],
    settings := some { minDepth := some (JVal.jnum 5) } }

/-- The LP model for `dataW` with Scenario Set `[outC]`. -/
def probW : LPProb :=
  ((buildLPProb powq0 (filteredOf dataW) (settingsOf dataW) [outC]).toOption).getD
    probDflt

/-- A feasible solution of `probW`: buy one unit of the deep token. -/
def solW : LPSol := { buys := [1, 0], sells := [0, 0], uses := [], profit := 1/2 }

/-- LP oracle answering exactly `probW` with `solW`. -/
def lpW : LPOracle :=
  { available := true, solve := fun p => if p = probW then some solW else none }

/-- Loop state used by the loop-level witnesses: seeds `[outC]`, no best yet. -/
def stW : LoopState :=
  { best := { profit := -1000000000, positions := [], cost := 0,
              outcomesSnap := [outC] },
    outcomes := [outC] }

/-- A two-sided token on `c` (used by the allowSells witness). -/
def tokC10 : Token :=
  { tokenId := ("t1"), conditionId := ("c"), outcome := ("YES"),
    ask := some (JVal.jnum (1/2)), askSize := some (JVal.jnum 10),
    bid := some (JVal.jnum (2/5)), bidSize := some (JVal.jnum 7) }

/-- Payload with `allowSells: false`. -/
def dataC10 : InputData :=
  { truthy := true, conditions := some [⟨some ("c")⟩], tokens := some [tokC10],
    groups := some [⟨some ("one_of"), none, some [("c")]⟩],
    settings := some { allowSells := some (JVal.jbool false) } }

/-- The LP model for `dataC10` with Scenario Set `[outC]`. -/
def probC10 : LPProb :=
  ((buildLPProb powq0 (filteredOf dataC10) (settingsOf dataC10) [outC]).toOption).getD
    probDflt

/-- A feasible solution of `probC10`. -/
def solC10 : LPSol := { buys := [1], sells := [0], uses := [], profit := 1/2 }

/-- LP oracle answering exactly `probC10` with `solC10`. -/
def lpC10 : LPOracle :=
  { available := true, solve := fun p => if p = probC10 then some solC10 else none }

/-- A candidate position with a delta of `1e-13` on condition `a`. -/
def posC8 : Position :=
  { tokenId := ("t"), conditionId := ("a"), outcome := ("YES"), buy := 0,
    sell := 0, ask := 0, bid := 0, feeBps := 0,
    delta := 1 / 10000000000000, label := JVal.jnull }

/-- A candidate position with delta 3/4 on condition `a` (C8 witness). -/
def posC8w : Position :=
  { tokenId := ("t"), conditionId := ("a"), outcome := ("YES"), buy := 1,
    sell := 1/4, ask := 0, bid := 0, feeBps := 0, delta := 3/4,
    label := JVal.jnull }

/-- Payload with an empty conditions array (but a truthy dict). -/
def dataC9 : InputData := { truthy := true, conditions := some [] }

/-- The position `_solve_portfolio` records for `solW` on `dataW`. -/
def posW : Position :=
  { tokenId := ("t1"), conditionId := ("c"), outcome := ("YES"), buy := 1,
    sell := 0, ask := 1/2, bid := 0, feeBps := 0, delta := 1,
    label := JVal.jnull }

/-- Best state after the first loop iteration on `dataW`. -/
def bestW : BestState :=
  { profit := 1/2, positions := [posW], cost := 1/2, outcomesSnap := [outC] }

/-- Loop state after the first loop iteration on `dataW`. -/
def stW2 : LoopState := { best := bestW, outcomes := [outC] }

/-- A position respects its filtered token's usable depths: it belongs to some
filtered token (by tokenId) and its buy/sell quantities sit inside the LP
variable bounds of that token. -/
def PosOk (filtered : List Token) (allowS : Bool) (p : Position) : Prop :=
  ∃ t ∈ filtered, p.tokenId = t.tokenId ∧ 0 ≤ p.buy ∧
    p.buy ≤ (adjSizes allowS t).1 ∧ 0 ≤ p.sell ∧ p.sell ≤ (adjSizes allowS t).2

/-- Invariant of the recorded best candidate: under every Outcome of its
Scenario-Set snapshot, the payoff of its (filtered) positions minus its cost
is at least its profit minus one output-filter epsilon per suppressed
position; and every position respects its token's bounds. -/
def BestInv (filtered : List Token) (allowS : Bool) (b : BestState) : Prop :=
  (∀ o ∈ b.outcomesSnap,
    _evaluate_payoff b.positions o - b.cost ≥
      b.profit - (((filtered.length : ℚ) - (b.positions.length : ℚ)) * eps9)) ∧
  (∀ p ∈ b.positions, PosOk filtered allowS p)

/-- The best state the pipeline records on `dataC1`: profit 0, an empty
emitted position list (the `1e-9` buy was filtered out), cost `1e-9`. -/
def bestC1 : BestState :=
  { profit := 0, positions := [], cost := eps9, outcomesSnap := [outC] }

/-- The position `_solve_portfolio` records for `solC10` on `dataC10`. -/
def posC10 : Position :=
  { tokenId := ("t1"), conditionId := ("c"), outcome := ("YES"), buy := 1,
    sell := 0, ask := 1/2, bid := 2/5, feeBps := 0, delta := 1,
    label := JVal.jnull }

/-- Best state the pipeline records on `dataC10`. -/
def bestC10 : BestState :=
  { profit := 1/2, positions := [posC10], cost := 1/2, outcomesSnap := [outC] }

/-- Two raw tokens are quote-equivalent when they agree on everything the
pipeline ever reads from them: the three identity strings, the coerced value
of each quote field, and the resolved `label or question` value. -/
def tokEquiv (t t' : Token) : Prop :=
  t.tokenId = t'.tokenId ∧ t.conditionId = t'.conditionId ∧
    t.outcome = t'.outcome ∧
    sfGet t.ask 0 = sfGet t'.ask 0 ∧ sfGet t.bid 0 = sfGet t'.bid 0 ∧
    sfGet t.askSize 0 = sfGet t'.askSize 0 ∧
    sfGet t.bidSize 0 = sfGet t'.bidSize 0 ∧
    sfGet t.feeBps 0 = sfGet t'.feeBps 0 ∧
    pyOr (t.label.getD JVal.jnull) (t.question.getD JVal.jnull)
      = pyOr (t'.label.getD JVal.jnull) (t'.question.getD JVal.jnull)

/-- Two settings objects agree on every value the pipeline reads from them. -/
def settingsUsedEq (s s' : Settings) : Prop :=
  sfGet s.minProfit 0 = sfGet s'.minProfit 0 ∧
    sfGet s.minDepth 0 = sfGet s'.minDepth 0 ∧
    sfGet s.minDepthUsd 0 = sfGet s'.minDepthUsd 0 ∧
    allowSellsS s = allowSellsS s' ∧
    sfGet s.oracleTimeout 2 = sfGet s'.oracleTimeout 2 ∧
    pyInt (s.maxIter.getD (JVal.jnum 12)) = pyInt (s'.maxIter.getD (JVal.jnum 12)) ∧
    sfGet s.tolerance (1/100000) = sfGet s'.tolerance (1/100000) ∧
    pyInt (s.scale.getD (JVal.jnum 1000000))
      = pyInt (s'.scale.getD (JVal.jnum 1000000)) ∧
    pyInt (maxLegsExpr s) = pyInt (maxLegsExpr s') ∧
    sfGet s.maxNotional 0 = sfGet s'.maxNotional 0 ∧
    sfGet s.feeBps 0 = sfGet s'.feeBps 0 ∧
    sfGet s.slippageBps 0 = sfGet s'.slippageBps 0 ∧
    sfGet s.feeCurveRate 0 = sfGet s'.feeCurveRate 0 ∧
    sfGet s.feeCurveExponent 0 = sfGet s'.feeCurveExponent 0

/-- One of the five numeric quote fields of a token. -/
inductive QField where
  | ask
  | bid
  | askSize
  | bidSize
  | feeBps
deriving DecidableEq, Repr

/-- Replace one quote field of a token. -/
def quoteUpd (f : QField) (t : Token) (v : Option JVal) : Token :=
  match f with
  | .ask => { t with ask := v }
  | .bid => { t with bid := v }
  | .askSize => { t with askSize := v }
  | .bidSize => { t with bidSize := v }
  | .feeBps => { t with feeBps := v }

/-- Replace the tokens array of a payload. -/
def setTokens (d : InputData) (toks : List Token) : InputData :=
  { d with tokens := some toks }

/-- Replace the `minProfit` settings field of a payload. -/
def updMinProfit (d : InputData) (v : Option JVal) : InputData :=
  { d with settings := some { settingsOf d with minProfit := v } }

/-- Replace the `minDepth` settings field of a payload. -/
def updMinDepth (d : InputData) (v : Option JVal) : InputData :=
  { d with settings := some { settingsOf d with minDepth := v } }

/-- The single BUY leg printed for the `dataW` run. -/
def legW1 : Leg :=
  { tokenId := ("t1"), side := ("BUY"), price := 1/2, shares := 1,
    label := JVal.jnull }

/-- The single BUY leg printed for the `dataC10` run. -/
def legC10a : Leg :=
  { tokenId := ("t1"), side := ("BUY"), price := 1/2, shares := 1,
    label := JVal.jnull }

/-! Theorems. -/

theorem dropWhile_nil_of_all (p : Char → Bool) :
    ∀ l : List Char, l.all p = true → l.dropWhile p = [] := by
  intro l h
  induction l with
  | nil => rfl
  | cons a as ih =>
    simp only [List.all_cons, Bool.and_eq_true] at h
    simp [List.dropWhile, h.1, ih h.2]

theorem pyStrip_blank (s : String) (h : s.toList.all Char.isWhitespace = true) :
    pyStrip s = ("") := by
  unfold pyStrip
  rw [dropWhile_nil_of_all _ _ h]
  rfl

/-- Every early (left) exit of the pipeline is one of the three fixed
envelopes. -/
theorem mainCore_inl (cp : CPOracle) (lp : LPOracle) (powq : ℚ → ℚ → ℚ)
    (d : InputData) (env : Envelope)
    (h : mainCore cp lp powq d = .ok (.inl env)) :
    env = .err ("empty input") ∨ env = .ok [] ∨
      env = .err ("no feasible outcome")  := by
  unfold mainCore at h
  split at h
  · exact Or.inl (by injection h with h'; injection h' with h''; exact h''.symm)
  · split at h
    · exact Or.inr (Or.inl (by injection h with h'; injection h' with h''; exact h''.symm))
    · split at h
      · exact Or.inr (Or.inl (by injection h with h'; injection h' with h''; exact h''.symm))
      · split at h
        · exact absurd h (by simp)
        · split at h
          · exact absurd h (by simp)
          · split at h
            · exact absurd h (by simp)
            · split at h
              · exact Or.inr (Or.inr (by injection h with h'; injection h' with h''; exact h''.symm))
              · split at h
                · exact absurd h (by simp)
                · exact absurd h (by simp)

theorem runLoop_le (cp : CPOracle) (lp : LPOracle) (powq : ℚ → ℚ → ℚ)
    (condIds : List String) (groups : List RawGroup) (rels : List RawRel)
    (filtered : List Token) (s : Settings) (timeout tol : ℚ) (scale : ℤ) :
    ∀ (fuel : ℕ) (st stF : LoopState) (n : ℕ) (exh : Bool),
      runLoop cp lp powq condIds groups rels filtered s timeout tol scale fuel st
        = .ok (stF, n, exh) → n ≤ fuel := by
  intro fuel
  induction fuel with
  | zero =>
    intro st stF n exh h
    unfold runLoop at h
    injection h with h'
    injection h' with h1 h23
    injection h23 with h2 h3
    omega
  | succ m ih =>
    intro st stF n exh h
    unfold runLoop at h
    cases hb : loopBody cp lp powq condIds groups rels filtered s timeout tol scale st with
    | error e => rw [hb] at h; exact absurd h (by simp)
    | ok pr =>
      rw [hb] at h
      obtain ⟨cont, st'⟩ := pr
      cases cont with
      | false =>
        injection h with h'
        injection h' with h1 h23
        injection h23 with h2 h3
        omega
      | true =>
        dsimp only at h
        cases hr : runLoop cp lp powq condIds groups rels filtered s timeout tol scale m st' with
        | error e => rw [hr] at h; exact absurd h (by simp)
        | ok trip =>
          rw [hr] at h
          obtain ⟨stF', n', exh'⟩ := trip
          injection h with h'
          injection h' with h1 h23
          injection h23 with h2 h3
          have := ih st' stF' n' exh' hr
          omega

/-- C9: when stdin is empty or whitespace-only the program prints the
`status: error, error: empty input` envelope; by contrast a payload whose
conditions list yields no ids gets `status: ok` with an empty opportunities
array. -/
theorem claim_C9 :
    (∀ (cp : CPOracle) (lp : LPOracle) (powq : ℚ → ℚ → ℚ)
       (parse : String → InputData) (stdin : String),
       stdin.toList.all Char.isWhitespace = true →
       runProgram cp lp powq parse stdin = .ok (.err ("empty input"))) ∧
    (∀ (cp : CPOracle) (lp : LPOracle) (powq : ℚ → ℚ → ℚ) (d : InputData),
       d.truthy = true → condIdsOf d = [] →
       mainOn cp lp powq d = .ok (.ok [])) := by
  constructor
  · intro cp lp powq parse stdin h
    simp [runProgram, _load_input, pyStrip_blank stdin h, mainOn, mainCore,
      emptyInput]
  · intro cp lp powq d ht hc
    simp [mainOn, mainCore, ht, hc]

/-- Witness for C9 at whitespace stdin and at a concrete empty-conditions
payload. -/
theorem claim_C9_witness :
    runProgram cpTrue lpNone powq0 (fun _ => emptyInput) ("  \t\n")
        = .ok (.err ("empty input")) ∧
      mainOn cpTrue lpNone powq0 dataC9 = .ok (.ok []) :=
  ⟨claim_C9.1 cpTrue lpNone powq0 (fun _ => emptyInput) ("  \t\n") (by decide),
   claim_C9.2 cpTrue lpNone powq0 dataC9 (by rfl) (by rfl)⟩

/-- C4: the robust loop body runs at most `maxIter` times (the fuel `runLoop`
receives in `mainCore` is `maxIter.toNat`), and once the pipeline is past
seeding it can only produce a `status: ok` envelope — exhausting the budget
returns the best candidate normally, never an error. -/
theorem claim_C4 :
    (∀ (cp : CPOracle) (lp : LPOracle) (powq : ℚ → ℚ → ℚ)
       (condIds : List String) (groups : List RawGroup) (rels : List RawRel)
       (filtered : List Token) (s : Settings) (timeout tol : ℚ) (scale : ℤ)
       (fuel : ℕ) (st stF : LoopState) (n : ℕ) (exh : Bool),
       runLoop cp lp powq condIds groups rels filtered s timeout tol scale fuel st
         = .ok (stF, n, exh) → n ≤ fuel) ∧
    (∀ (cp : CPOracle) (lp : LPOracle) (powq : ℚ → ℚ → ℚ) (d : InputData)
       (env : Envelope), mainOn cp lp powq d = .ok env →
       env = .err ("empty input") ∨ env = .err ("no feasible outcome") ∨
         ∃ opps, env = .ok opps) := by
  constructor
  · intro cp lp powq condIds groups rels filtered s timeout tol scale fuel st stF n exh h
    exact runLoop_le cp lp powq condIds groups rels filtered s timeout tol scale
      fuel st stF n exh h
  · intro cp lp powq d env h
    unfold mainOn at h
    cases hmc : mainCore cp lp powq d with
    | error e => rw [hmc] at h; exact absurd h (by simp)
    | ok v =>
      rw [hmc] at h
      cases v with
      | inl env0 =>
        injection h with h'
        subst h'
        exact (mainCore_inl cp lp powq d env0 hmc).imp id
          (fun h1 => h1.elim (fun h2 => Or.inr ⟨[], h2⟩) Or.inl)
      | inr pr =>
        obtain ⟨mp, best⟩ := pr
        dsimp only at h
        split at h
        · injection h with h'
          exact Or.inr (Or.inr ⟨[], h'.symm⟩)
        · injection h with h'
          exact Or.inr (Or.inr ⟨[mkOpp best], h'.symm⟩)

/-- Witness for C4: a concrete run whose loop stops after one iteration
(1 ≤ 12), and a concrete envelope from the post-loop path. -/
theorem claim_C4_witness :
    (1 : ℕ) ≤ 12 ∧
      ((Envelope.ok [] : Envelope) = .err ("empty input") ∨
        (Envelope.ok [] : Envelope) = .err ("no feasible outcome") ∨
        ∃ opps, (Envelope.ok [] : Envelope) = .ok opps) :=
  ⟨claim_C4.1 cpTrue lpNone powq0 [("c")] [] [] (filteredOf dataW)
      (settingsOf dataW) 2 (1/100000) 1000000 12 stW stW 1 false (by decide),
   claim_C4.2 cpTrue lpNone powq0 dataC9 (Envelope.ok []) (by rfl)⟩

theorem dedupApp_append (acc : List Outcome) (o? : Option Outcome) :
    ∃ tail, dedupApp acc o? = acc ++ tail := by
  unfold dedupApp
  cases o? with
  | none => exact ⟨[], by simp⟩
  | some o =>
    by_cases h : o ≠ [] ∧ o ∉ acc
    · exact ⟨[o], by simp [h]⟩
    · exact ⟨[], by simp [h]⟩

theorem dedupApp_nodup (acc : List Outcome) (o? : Option Outcome)
    (h : acc.Nodup) : (dedupApp acc o?).Nodup := by
  unfold dedupApp
  cases o? with
  | none => exact h
  | some o =>
    dsimp only
    by_cases hc : o ≠ [] ∧ o ∉ acc
    · rw [if_pos hc]
      simp [List.nodup_append, h, hc.2]
    · rw [if_neg hc]
      exact h

theorem loopBody_outcomes (cp : CPOracle) (lp : LPOracle) (powq : ℚ → ℚ → ℚ)
    (condIds : List String) (groups : List RawGroup) (rels : List RawRel)
    (filtered : List Token) (s : Settings) (timeout tol : ℚ) (scale : ℤ)
    (st : LoopState) (c : Bool) (st' : LoopState)
    (h : loopBody cp lp powq condIds groups rels filtered s timeout tol scale st
      = .ok (c, st')) :
    (∃ tail, st'.outcomes = st.outcomes ++ tail) ∧
      (st.outcomes.Nodup → st'.outcomes.Nodup) := by
  unfold loopBody at h
  cases hp : _solve_portfolio lp powq st.outcomes filtered s with
  | error e => rw [hp] at h; exact absurd h (by simp)
  | ok r =>
    rw [hp] at h
    cases r with
    | none =>
      injection h with h'
      injection h' with h1 h2
      subst h2
      exact ⟨⟨[], by simp⟩, id⟩
    | some trip =>
      obtain ⟨profit, positions, cost⟩ := trip
      dsimp only at h
      cases hw : _solve_worst_outcome cp condIds groups rels positions timeout scale with
      | error e => rw [hw] at h; exact absurd h (by simp)
      | ok w =>
        rw [hw] at h
        cases w with
        | none =>
          injection h with h'
          injection h' with h1 h2
          subst h2
          exact ⟨⟨[], by simp⟩, id⟩
        | some worst =>
          dsimp only at h
          split at h
          · injection h with h'
            injection h' with h1 h2
            subst h2
            exact ⟨⟨[], by simp⟩, id⟩
          · injection h with h'
            injection h' with h1 h2
            subst h2
            refine ⟨?_, ?_⟩
            · by_cases hm : worst ∈ st.outcomes
              · exact ⟨[], by simp [hm]⟩
              · exact ⟨[worst], by simp [hm]⟩
            · intro hnd
              by_cases hm : worst ∈ st.outcomes
              · simpa [hm] using hnd
              · simp only [hm, if_neg, ite_false]
                simp [List.nodup_append, hnd, hm]

theorem seedOutcomes_nodup (cp : CPOracle) (condIds : List String)
    (groups : List RawGroup) (rels : List RawRel) (timeout : ℚ)
    (l : List Outcome)
    (h : seedOutcomes cp condIds groups rels timeout = .ok l) : l.Nodup := by
  unfold seedOutcomes at h
  cases h1 : _solve_outcome cp condIds groups rels ("min") timeout with
  | error e => rw [h1] at h; exact absurd h (by simp)
  | ok o1 =>
    rw [h1] at h
    dsimp only at h
    cases h2 : _solve_outcome cp condIds groups rels ("max") timeout with
    | error e => rw [h2] at h; exact absurd h (by simp)
    | ok o2 =>
      rw [h2] at h
      injection h with h'
      subst h'
      exact dedupApp_nodup _ _ (dedupApp_nodup _ _ List.nodup_nil)

theorem runLoop_outcomes (cp : CPOracle) (lp : LPOracle) (powq : ℚ → ℚ → ℚ)
    (condIds : List String) (groups : List RawGroup) (rels : List RawRel)
    (filtered : List Token) (s : Settings) (timeout tol : ℚ) (scale : ℤ) :
    ∀ (fuel : ℕ) (st stF : LoopState) (n : ℕ) (exh : Bool),
      runLoop cp lp powq condIds groups rels filtered s timeout tol scale fuel st
        = .ok (stF, n, exh) →
      (∃ tail, stF.outcomes = st.outcomes ++ tail) ∧
        (st.outcomes.Nodup → stF.outcomes.Nodup) := by
  intro fuel
  induction fuel with
  | zero =>
    intro st stF n exh h
    unfold runLoop at h
    injection h with h'
    injection h' with h1 h2
    subst h1
    exact ⟨⟨[], by simp⟩, id⟩
  | succ m ih =>
    intro st stF n exh h
    unfold runLoop at h
    cases hb : loopBody cp lp powq condIds groups rels filtered s timeout tol scale st with
    | error e => rw [hb] at h; exact absurd h (by simp)
    | ok pr =>
      rw [hb] at h
      obtain ⟨cont, st'⟩ := pr
      have hstep := loopBody_outcomes cp lp powq condIds groups rels filtered s
        timeout tol scale st cont st' hb
      cases cont with
      | false =>
        injection h with h'
        injection h' with h1 h2
        subst h1
        exact hstep
      | true =>
        dsimp only at h
        cases hr : runLoop cp lp powq condIds groups rels filtered s timeout tol scale m st' with
        | error e => rw [hr] at h; exact absurd h (by simp)
        | ok trip =>
          rw [hr] at h
          obtain ⟨stF', n', exh'⟩ := trip
          injection h with h'
          injection h' with h1 h2
          subst h1
          obtain ⟨⟨t1, ht1⟩, hnd1⟩ := hstep
          obtain ⟨⟨t2, ht2⟩, hnd2⟩ := ih st' stF' n' exh' hr
          exact ⟨⟨t1 ++ t2, by rw [ht2, ht1, List.append_assoc]⟩,
            fun hnd => hnd2 (hnd1 hnd)⟩

/-- C7: the Scenario Set only grows (appending, never removing or replacing)
and stays duplicate-free under Outcome value equality: the seeded extreme
outcomes are deduplicated, and every loop step extends the set by at most one
new outcome while preserving both properties (transitively over the whole
loop). -/
theorem claim_C7 :
    (∀ (cp : CPOracle) (condIds : List String) (groups : List RawGroup)
       (rels : List RawRel) (timeout : ℚ) (l : List Outcome),
       seedOutcomes cp condIds groups rels timeout = .ok l → l.Nodup) ∧
    (∀ (cp : CPOracle) (lp : LPOracle) (powq : ℚ → ℚ → ℚ)
       (condIds : List String) (groups : List RawGroup) (rels : List RawRel)
       (filtered : List Token) (s : Settings) (timeout tol : ℚ) (scale : ℤ)
       (st : LoopState) (c : Bool) (st' : LoopState),
       loopBody cp lp powq condIds groups rels filtered s timeout tol scale st
           = .ok (c, st') →
       (∃ tail, st'.outcomes = st.outcomes ++ tail) ∧
         (st.outcomes.Nodup → st'.outcomes.Nodup)) ∧
    (∀ (cp : CPOracle) (lp : LPOracle) (powq : ℚ → ℚ → ℚ)
       (condIds : List String) (groups : List RawGroup) (rels : List RawRel)
       (filtered : List Token) (s : Settings) (timeout tol : ℚ) (scale : ℤ)
       (fuel : ℕ) (st stF : LoopState) (n : ℕ) (exh : Bool),
       runLoop cp lp powq condIds groups rels filtered s timeout tol scale fuel st
           = .ok (stF, n, exh) →
       (∃ tail, stF.outcomes = st.outcomes ++ tail) ∧
         (st.outcomes.Nodup → stF.outcomes.Nodup)) :=
  ⟨seedOutcomes_nodup,
   loopBody_outcomes,
   fun cp lp powq condIds groups rels filtered s timeout tol scale =>
     runLoop_outcomes cp lp powq condIds groups rels filtered s timeout tol scale⟩

/-- Witness for C7 on the concrete `dataW` scenario: deduplicated seeds and
one loop step that keeps the singleton Scenario Set duplicate-free. -/
theorem claim_C7_witness :
    ([outC] : List Outcome).Nodup ∧
      (∃ tail, stW2.outcomes = stW.outcomes ++ tail) ∧
      stW2.outcomes.Nodup :=
  ⟨claim_C7.1 cpTrue [("c")] [⟨some ("one_of"), none, some [("c")]⟩] [] 2 [outC]
      (by decide),
   (claim_C7.2.1 cpTrue lpW powq0 [("c")] [⟨some ("one_of"), none, some [("c")]⟩]
      [] (filteredOf dataW) (settingsOf dataW) 2 (1/100000) 1000000 stW false stW2
      (by decide)).1,
   (claim_C7.2.1 cpTrue lpW powq0 [("c")] [⟨some ("one_of"), none, some [("c")]⟩]
      [] (filteredOf dataW) (settingsOf dataW) 2 (1/100000) 1000000 stW false stW2
      (by decide)).2 (by decide)⟩

/-- C5: in a loop iteration where the master LP produced a candidate and the
adversary produced a worst outcome, the loop breaks (converges) exactly when
`worstPayoff - cost + tolerance ≥ masterProfit`; on convergence the Scenario
Set is unchanged, otherwise the worst outcome is appended only when not
already present and the loop continues. -/
theorem claim_C5 (cp : CPOracle) (lp : LPOracle) (powq : ℚ → ℚ → ℚ)
    (condIds : List String) (groups : List RawGroup) (rels : List RawRel)
    (filtered : List Token) (s : Settings) (timeout tol : ℚ) (scale : ℤ)
    (st : LoopState) (c : Bool) (st' : LoopState) (profit : ℚ)
    (positions : List Position) (cost : ℚ) (worst : Outcome)
    (h1 : _solve_portfolio lp powq st.outcomes filtered s
      = .ok (some (profit, positions, cost)))
    (h2 : _solve_worst_outcome cp condIds groups rels positions timeout scale
      = .ok (some worst))
    (h3 : loopBody cp lp powq condIds groups rels filtered s timeout tol scale st
      = .ok (c, st')) :
    (c = false ↔ _evaluate_payoff positions worst - cost + tol ≥ profit) ∧
      (c = false → st'.outcomes = st.outcomes) ∧
      (c = true → st'.outcomes =
        (if worst ∈ st.outcomes then st.outcomes else st.outcomes ++ [worst])) := by
  unfold loopBody at h3
  rw [h1] at h3
  dsimp only at h3
  rw [h2] at h3
  dsimp only at h3
  split at h3
  case isTrue hge =>
    injection h3 with h'
    injection h' with hc hst
    subst hst
    refine ⟨⟨fun _ => hge, fun _ => hc.symm⟩, fun _ => rfl, fun ht => ?_⟩
    · rw [← hc] at ht
      exact absurd ht (by simp)
  case isFalse hge =>
    injection h3 with h'
    injection h' with hc hst
    subst hst
    refine ⟨⟨fun hf => ?_, fun hge' => absurd hge' hge⟩, fun hf => ?_, fun _ => rfl⟩
    · rw [← hc] at hf
      exact absurd hf (by simp)
    · rw [← hc] at hf
      exact absurd hf (by simp)

/-- Witness for C5 on the concrete `dataW` scenario: the first iteration
converges (`worstProfit + tol ≥ profit`) and leaves the Scenario Set alone. -/
theorem claim_C5_witness :
    ((false = false) ↔ _evaluate_payoff [posW] outC - 1/2 + 1/100000 ≥ 1/2) ∧
      stW2.outcomes = stW.outcomes :=
  ⟨(claim_C5 cpTrue lpW powq0 [("c")] [⟨some ("one_of"), none, some [("c")]⟩] []
      (filteredOf dataW) (settingsOf dataW) 2 (1/100000) 1000000 stW false stW2
      (1/2) [posW] (1/2) outC (by decide) (by decide) (by decide)).1,
   (claim_C5 cpTrue lpW powq0 [("c")] [⟨some ("one_of"), none, some [("c")]⟩] []
      (filteredOf dataW) (settingsOf dataW) 2 (1/100000) 1000000 stW false stW2
      (1/2) [posW] (1/2) outC (by decide) (by decide) (by decide)).2.1 rfl⟩

theorem mem_foldl_keys (l : List String) :
    ∀ (acc : List String) (a : String),
      (a ∈ l.foldl (fun acc c => if acc.contains c then acc else acc ++ [c]) acc)
        ↔ (a ∈ acc ∨ a ∈ l) := by
  induction l with
  | nil => intro acc a; simp
  | cons c cs ih =>
    intro acc a
    simp only [List.foldl_cons]
    by_cases hc : acc.contains c
    · rw [if_pos hc]
      rw [ih acc a]
      constructor
      · rintro (h | h)
        · exact Or.inl h
        · exact Or.inr (List.mem_cons_of_mem c h)
      · rintro (h | h)
        · exact Or.inl h
        · rcases List.mem_cons.mp h with rfl | h
          · exact Or.inl (by simpa using hc)
          · exact Or.inr h
    · rw [if_neg hc]
      rw [ih (acc ++ [c]) a]
      simp only [List.mem_append, List.mem_singleton, List.mem_cons]
      tauto

theorem mem_pyDictKeys (l : List String) (a : String) :
    a ∈ pyDictKeys l ↔ a ∈ l := by
  unfold pyDictKeys
  rw [mem_foldl_keys l [] a]
  simp

theorem lookup_keyed (f : String → Option ℤ) :
    ∀ (keys : List String) (cid : String),
      (keys.filterMap (fun c => (f c).map (fun v => (c, v)))).lookup cid
        = if cid ∈ keys then f cid else none := by
  intro keys
  induction keys with
  | nil => intro cid; simp
  | cons c ks ih =>
    intro cid
    by_cases hc : c = cid
    · subst hc
      cases hf : f c with
      | none =>
        simp only [List.filterMap_cons, hf, Option.map_none']
        rw [ih c]
        simp [hf]
      | some v =>
        simp only [List.filterMap_cons, hf, Option.map_some']
        simp [List.lookup]
    · have hmem : (cid ∈ c :: ks) ↔ (cid ∈ ks) := by
        simp [List.mem_cons, Ne.symm hc]
      cases hf : f c with
      | none =>
        simp only [List.filterMap_cons, hf, Option.map_none']
        rw [ih cid]
        exact (if_congr hmem rfl rfl).symm
      | some v =>
        simp only [List.filterMap_cons, hf, Option.map_some']
        have hbeq : (cid == c) = false := by
          simp [Ne.symm hc]
        simp only [List.lookup, hbeq]
        rw [ih cid]
        exact (if_congr hmem rfl rfl).symm

theorem worstObjTerms_keyed (condIds : List String) (positions : List Position)
    (scale : ℤ) :
    worstObjTerms condIds positions scale
      = (pyDictKeys condIds).filterMap (fun c =>
          ((fun c =>
            if |worstCoeff condIds positions c| < 1 / 1000000000000 then none
            else some (pyRound (worstCoeff condIds positions c * (scale : ℚ)))) c).map
            (fun v => (c, v))) := by
  unfold worstObjTerms
  congr 1
  funext c
  dsimp only
  by_cases hcc : |worstCoeff condIds positions c| < 1 / 1000000000000
  · rw [if_pos hcc, if_pos hcc]
    rfl
  · rw [if_neg hcc, if_neg hcc]
    rfl

theorem worstCoeff_sum (condIds : List String) (positions : List Position)
    (cid : String) (h : condIds.contains cid = true) :
    worstCoeff condIds positions cid =
      (positions.map (fun p => if p.conditionId = cid then
        (if p.outcome = ("YES") then p.delta else -p.delta) else 0)).sum := by
  unfold worstCoeff
  rw [if_pos h]
  have key : ∀ (l : List Position) (acc : ℚ),
      l.foldl (fun acc p =>
        if p.conditionId = cid then
          if p.outcome = ("YES") then acc + p.delta else acc - p.delta
        else acc) acc
      = acc + (l.map (fun p => if p.conditionId = cid then
          (if p.outcome = ("YES") then p.delta else -p.delta) else 0)).sum := by
    intro l
    induction l with
    | nil => intro acc; simp
    | cons p ps ih =>
      intro acc
      simp only [List.foldl_cons, List.map_cons, List.sum_cons]
      by_cases h1 : p.conditionId = cid
      · by_cases h2 : p.outcome = ("YES")
        · rw [if_pos h1, if_pos h2, ih, if_pos h1, if_pos h2]; ring
        · rw [if_pos h1, if_neg h2, ih, if_pos h1, if_neg h2]; ring
      · rw [if_neg h1, ih, if_neg h1]; ring
  rw [key positions 0]
  ring

/-- C8 (amended): the adversary coefficient of a condition is the sum of
`+delta` over its YES-side candidate positions and `-delta` over the rest, and
whenever its absolute value reaches `1e-12` the objective term handed to the
CP solver is that coefficient times `scale`, rounded to the nearest integer
(Python `round`, half-to-even); coefficients below `1e-12` are dropped from
the objective (no term is handed). -/
theorem claim_C8 (condIds : List String) (positions : List Position)
    (scale : ℤ) (cid : String) (h : condIds.contains cid = true) :
    worstCoeff condIds positions cid =
        (positions.map (fun p => if p.conditionId = cid then
          (if p.outcome = ("YES") then p.delta else -p.delta) else 0)).sum ∧
      (1 / 1000000000000 ≤ |worstCoeff condIds positions cid| →
        (worstObjTerms condIds positions scale).lookup cid
          = some (pyRound (worstCoeff condIds positions cid * (scale : ℚ)))) ∧
      (|worstCoeff condIds positions cid| < 1 / 1000000000000 →
        (worstObjTerms condIds positions scale).lookup cid = none) := by
  have hmem : cid ∈ pyDictKeys condIds :=
    (mem_pyDictKeys condIds cid).mpr (by simpa using h)
  refine ⟨worstCoeff_sum condIds positions cid h, ?_, ?_⟩
  · intro hge
    rw [worstObjTerms_keyed, lookup_keyed, if_pos hmem, if_neg (not_lt.mpr hge)]
  · intro hlt
    rw [worstObjTerms_keyed, lookup_keyed, if_pos hmem, if_pos hlt]

/-- Counterexample for C8 as stated: with `scale = 10^13` and a candidate
delta of `10^-13`, the coefficient (`10^-13`, below the `1e-12` skip) is
dropped — no objective term for condition `a` is handed to the solver — even
though `round(coeff * scale) = 1 ≠ 0`. -/
theorem claim_C8_cex :
    (worstObjTerms [("a")] [posC8] 10000000000000).lookup ("a") = none ∧
      pyRound (worstCoeff [("a")] [posC8] ("a") * ((10000000000000 : ℤ) : ℚ)) = 1 := by
  constructor
  · decide
  · decide

/-- Witness for C8 at a coefficient above the skip threshold: the handed term
is `round((3/4) * 10^6)`. -/
theorem claim_C8_witness :
    worstCoeff [("a")] [posC8w] ("a") =
        ([posC8w].map (fun p => if p.conditionId = ("a") then
          (if p.outcome = ("YES") then p.delta else -p.delta) else 0)).sum ∧
      (worstObjTerms [("a")] [posC8w] 1000000).lookup ("a")
        = some (pyRound (worstCoeff [("a")] [posC8w] ("a") * ((1000000 : ℤ) : ℚ))) :=
  ⟨(claim_C8 [("a")] [posC8w] 1000000 ("a") (by decide)).1,
   (claim_C8 [("a")] [posC8w] 1000000 ("a") (by decide)).2.1 (by decide)⟩

theorem relCons_append (condIds : List String) (l1 l2 : List RawRel) :
    relCons condIds (l1 ++ l2) = relCons condIds l1 ++ relCons condIds l2 := by
  induction l1 with
  | nil => simp [relCons]
  | cons r rs ih => simp [relCons, ih]

theorem addcons_drop (condIds : List String) (groups : List RawGroup)
    (pre post : List RawRel) (r : RawRel) (hr : relCon condIds r = []) :
    _add_constraints condIds groups (pre ++ r :: post)
      = _add_constraints condIds groups (pre ++ post) := by
  unfold _add_constraints
  cases buildGroupCons condIds groups with
  | error e => rfl
  | ok gcs =>
    have : relCons condIds (pre ++ r :: post) = relCons condIds (pre ++ post) := by
      rw [relCons_append, relCons_append]
      show relCons condIds pre ++ (relCon condIds r ++ relCons condIds post) = _
      rw [hr]
      simp
    rw [this]

theorem relCon_drop_implies (condIds : List String) (r : RawRel) (a b : String)
    (ht : pyLower (r.type.getD ("")) = ("implies")) (ha : r.ifId = some a)
    (hb : r.thenId = some b)
    (hk : (condIds.contains a && condIds.contains b) = false) :
    relCon condIds r = [] := by
  unfold relCon
  rw [ht, ha, hb]
  simp only [hk]
  rfl

theorem relCon_drop_mutex (condIds : List String) (r : RawRel) (a b : String)
    (ht : pyLower (r.type.getD ("")) = ("mutual_exclusive")) (ha : r.aId = some a)
    (hb : r.bId = some b)
    (hk : (condIds.contains a && condIds.contains b) = false) :
    relCon condIds r = [] := by
  unfold relCon
  rw [ht, ha, hb]
  simp only [hk]
  rfl

theorem buildGroupCons_ok (condIds : List String) (groups : List RawGroup)
    (h : ∀ g ∈ groups, ∃ cs, groupCon condIds g = .ok cs) :
    ∃ cs, buildGroupCons condIds groups = .ok cs := by
  induction groups with
  | nil => exact ⟨[], rfl⟩
  | cons g gs ih =>
    obtain ⟨cs, hg⟩ := h g (List.mem_cons_self g gs)
    obtain ⟨rest, hrest⟩ := ih fun g' hg' => h g' (List.mem_cons_of_mem g hg')
    refine ⟨cs ++ rest, ?_⟩
    unfold buildGroupCons
    rw [hg, hrest]

theorem addcons_ok (condIds : List String) (groups : List RawGroup)
    (rels : List RawRel)
    (h : ∀ g ∈ groups, ∃ cs, groupCon condIds g = .ok cs) :
    ∃ cs, _add_constraints condIds groups rels = .ok cs := by
  obtain ⟨cs, hg⟩ := buildGroupCons_ok condIds groups h
  exact ⟨cs ++ relCons condIds rels, by unfold _add_constraints; rw [hg]⟩

theorem solve_outcome_ok (cp : CPOracle) (condIds : List String)
    (groups : List RawGroup) (rels : List RawRel) (target : String)
    (timeout : ℚ) (h : ∀ g ∈ groups, ∃ cs, groupCon condIds g = .ok cs) :
    ∃ r, _solve_outcome cp condIds groups rels target timeout = .ok r := by
  obtain ⟨cs, hc⟩ := addcons_ok condIds groups rels h
  unfold _solve_outcome
  rw [hc]
  dsimp only
  cases cp condIds cs (if target = ("min") then ObjDir.minimize else ObjDir.maximize)
      (condIds.map fun c => (c, (1 : ℤ))) timeout with
  | none => exact ⟨none, rfl⟩
  | some asg => exact ⟨some (mkOutcome condIds asg), rfl⟩

theorem seedOutcomes_ok (cp : CPOracle) (condIds : List String)
    (groups : List RawGroup) (rels : List RawRel) (timeout : ℚ)
    (h : ∀ g ∈ groups, ∃ cs, groupCon condIds g = .ok cs) :
    ∃ l, seedOutcomes cp condIds groups rels timeout = .ok l := by
  obtain ⟨r1, h1⟩ := solve_outcome_ok cp condIds groups rels ("min") timeout h
  obtain ⟨r2, h2⟩ := solve_outcome_ok cp condIds groups rels ("max") timeout h
  exact ⟨dedupApp (dedupApp [] r1) r2, by unfold seedOutcomes; rw [h1]; dsimp only; rw [h2]⟩

theorem solve_worst_ok (cp : CPOracle) (condIds : List String)
    (groups : List RawGroup) (rels : List RawRel) (positions : List Position)
    (timeout : ℚ) (scale : ℤ)
    (h : ∀ g ∈ groups, ∃ cs, groupCon condIds g = .ok cs) :
    ∃ r, _solve_worst_outcome cp condIds groups rels positions timeout scale = .ok r := by
  obtain ⟨cs, hc⟩ := addcons_ok condIds groups rels h
  unfold _solve_worst_outcome
  rw [hc]
  dsimp only
  cases cp condIds cs ObjDir.minimize (worstObjTerms condIds positions scale) timeout with
  | none => exact ⟨none, rfl⟩
  | some asg => exact ⟨some (mkOutcome condIds asg), rfl⟩

theorem solve_portfolio_ok (lp : LPOracle) (powq : ℚ → ℚ → ℚ)
    (outcomes : List Outcome) (tokens : List Token) (s : Settings)
    (hml : ∃ n, pyInt (maxLegsExpr s) = .ok n) :
    ∃ r, _solve_portfolio lp powq outcomes tokens s = .ok r := by
  unfold _solve_portfolio
  by_cases hav : lp.available = false
  · rw [if_pos hav]; exact ⟨none, rfl⟩
  · rw [if_neg hav]
    obtain ⟨n, hn⟩ := hml
    unfold buildLPProb
    rw [hn]
    dsimp only
    cases lp.solve _ with
    | none => exact ⟨none, rfl⟩
    | some sol => exact ⟨_, rfl⟩

theorem loopBody_ok (cp : CPOracle) (lp : LPOracle) (powq : ℚ → ℚ → ℚ)
    (condIds : List String) (groups : List RawGroup) (rels : List RawRel)
    (filtered : List Token) (s : Settings) (timeout tol : ℚ) (scale : ℤ)
    (st : LoopState)
    (hg : ∀ g ∈ groups, ∃ cs, groupCon condIds g = .ok cs)
    (hml : ∃ n, pyInt (maxLegsExpr s) = .ok n) :
    ∃ r, loopBody cp lp powq condIds groups rels filtered s timeout tol scale st
      = .ok r := by
  unfold loopBody
  obtain ⟨r, hr⟩ := solve_portfolio_ok lp powq st.outcomes filtered s hml
  rw [hr]
  cases r with
  | none => exact ⟨(false, st), rfl⟩
  | some trip =>
    obtain ⟨profit, positions, cost⟩ := trip
    dsimp only
    obtain ⟨w, hw⟩ := solve_worst_ok cp condIds groups rels positions timeout scale hg
    rw [hw]
    cases w with
    | none => exact ⟨_, rfl⟩
    | some worst =>
      dsimp only
      by_cases hcv : _evaluate_payoff positions worst - cost + tol ≥ profit
      · rw [if_pos hcv]; exact ⟨_, rfl⟩
      · rw [if_neg hcv]; exact ⟨_, rfl⟩

theorem runLoop_ok (cp : CPOracle) (lp : LPOracle) (powq : ℚ → ℚ → ℚ)
    (condIds : List String) (groups : List RawGroup) (rels : List RawRel)
    (filtered : List Token) (s : Settings) (timeout tol : ℚ) (scale : ℤ)
    (hg : ∀ g ∈ groups, ∃ cs, groupCon condIds g = .ok cs)
    (hml : ∃ n, pyInt (maxLegsExpr s) = .ok n) :
    ∀ (fuel : ℕ) (st : LoopState),
      ∃ r, runLoop cp lp powq condIds groups rels filtered s timeout tol scale fuel st
        = .ok r := by
  intro fuel
  induction fuel with
  | zero => intro st; exact ⟨(st, 0, true), rfl⟩
  | succ m ih =>
    intro st
    obtain ⟨⟨c, st'⟩, hb⟩ := loopBody_ok cp lp powq condIds groups rels filtered s
      timeout tol scale st hg hml
    cases c with
    | false => exact ⟨(st', 1, false), by unfold runLoop; rw [hb]⟩
    | true =>
      obtain ⟨⟨stF, n, exh⟩, hr⟩ := ih st'
      exact ⟨(stF, n + 1, exh), by unfold runLoop; rw [hb]; dsimp only; rw [hr]⟩

theorem mainCore_ok (cp : CPOracle) (lp : LPOracle) (powq : ℚ → ℚ → ℚ)
    (d : InputData)
    (hg : ∀ g ∈ groupsOf d, ∃ cs, groupCon (condIdsOf d) g = .ok cs)
    (hmi : ∃ n, pyInt ((settingsOf d).maxIter.getD (JVal.jnum 12)) = .ok n)
    (hsc : ∃ n, pyInt ((settingsOf d).scale.getD (JVal.jnum 1000000)) = .ok n)
    (hml : ∃ n, pyInt (maxLegsExpr (settingsOf d)) = .ok n) :
    ∃ v, mainCore cp lp powq d = .ok v := by
  unfold mainCore
  by_cases h1 : d.truthy = false
  · rw [if_pos h1]; exact ⟨_, rfl⟩
  · rw [if_neg h1]
    by_cases h2 : (condIdsOf d).length = 0
    · rw [if_pos h2]; exact ⟨_, rfl⟩
    · rw [if_neg h2]
      by_cases h3 : filteredOf d = []
      · rw [if_pos h3]; exact ⟨_, rfl⟩
      · rw [if_neg h3]
        obtain ⟨mi, hmi'⟩ := hmi
        rw [hmi']
        dsimp only
        obtain ⟨sc, hsc'⟩ := hsc
        rw [hsc']
        dsimp only
        obtain ⟨l, hseed⟩ := seedOutcomes_ok cp (condIdsOf d) (groupsOf d)
          (relationsOf d) (oracleTimeoutOf d) hg
        rw [hseed]
        dsimp only
        by_cases h4 : l = []
        · rw [if_pos h4]; exact ⟨_, rfl⟩
        · rw [if_neg h4]
          obtain ⟨⟨stF, n, exh⟩, hrun⟩ := runLoop_ok cp lp powq (condIdsOf d)
            (groupsOf d) (relationsOf d) (filteredOf d) (settingsOf d)
            (oracleTimeoutOf d) (tolOf d) sc hg hml mi.toNat
            { best := { profit := -1000000000, positions := [], cost := 0,
                        outcomesSnap := l },
              outcomes := l }
          rw [hrun]
          exact ⟨_, rfl⟩

/-- C2 (amended): a Relation whose `implies`/`mutual_exclusive` reference is
missing or names an unknown condition id is silently dropped (removing it from
the relations list changes nothing); and for payloads whose ConstraintGroups
all build (recognized types reference only known ids and carry an
int-convertible `k`) and whose `maxIter`/`scale`/`maxLegs` settings are
int-convertible, the program always terminates with a well-formed envelope,
for every behaviour of the two solver backends.  (As stated the claim is
false: a ConstraintGroup referencing an unknown id raises `KeyError`, see the
counterexample.) -/
theorem claim_C2 :
    (∀ (condIds : List String) (groups : List RawGroup) (pre post : List RawRel)
       (r : RawRel) (a b : String),
       pyLower (r.type.getD ("")) = ("implies") → r.ifId = some a →
       r.thenId = some b →
       (condIds.contains a && condIds.contains b) = false →
       _add_constraints condIds groups (pre ++ r :: post)
         = _add_constraints condIds groups (pre ++ post)) ∧
    (∀ (condIds : List String) (groups : List RawGroup) (pre post : List RawRel)
       (r : RawRel) (a b : String),
       pyLower (r.type.getD ("")) = ("mutual_exclusive") → r.aId = some a →
       r.bId = some b →
       (condIds.contains a && condIds.contains b) = false →
       _add_constraints condIds groups (pre ++ r :: post)
         = _add_constraints condIds groups (pre ++ post)) ∧
    (∀ (cp : CPOracle) (lp : LPOracle) (powq : ℚ → ℚ → ℚ) (d : InputData),
       (∀ g ∈ groupsOf d, ∃ cs, groupCon (condIdsOf d) g = .ok cs) →
       (∃ n, pyInt ((settingsOf d).maxIter.getD (JVal.jnum 12)) = .ok n) →
       (∃ n, pyInt ((settingsOf d).scale.getD (JVal.jnum 1000000)) = .ok n) →
       (∃ n, pyInt (maxLegsExpr (settingsOf d)) = .ok n) →
       ∃ env, mainOn cp lp powq d = .ok env) := by
  refine ⟨?_, ?_, ?_⟩
  · intro condIds groups pre post r a b ht ha hb hk
    exact addcons_drop condIds groups pre post r
      (relCon_drop_implies condIds r a b ht ha hb hk)
  · intro condIds groups pre post r a b ht ha hb hk
    exact addcons_drop condIds groups pre post r
      (relCon_drop_mutex condIds r a b ht ha hb hk)
  · intro cp lp powq d hg hmi hsc hml
    obtain ⟨v, hv⟩ := mainCore_ok cp lp powq d hg hmi hsc hml
    unfold mainOn
    rw [hv]
    cases v with
    | inl env => exact ⟨env, rfl⟩
    | inr pr =>
      obtain ⟨mp, best⟩ := pr
      dsimp only
      by_cases hlt : best.profit < mp
      · rw [if_pos hlt]; exact ⟨_, rfl⟩
      · rw [if_neg hlt]; exact ⟨_, rfl⟩

/-- Counterexample to C2 as stated: the `one_of` group of `dataC2bad`
references the unknown id `zzz`, and the program dies with an unhandled
`KeyError` instead of printing an envelope. -/
theorem claim_C2_cex :
    mainOn cpTrue lpNone powq0 dataC2bad = .error (.keyError ("zzz")) := by
  decide

/-- Witness for C2: the malformed `implies` relation of `dataC2ok` is dropped,
and the (otherwise well-formed) payload resolves to an envelope. -/
theorem claim_C2_witness :
    (_add_constraints [("a")] [] ([] ++ relGhost :: [])
        = _add_constraints [("a")] [] ([] ++ [])) ∧
      ∃ env, mainOn cpTrue lpNone powq0 dataC2ok = .ok env :=
  ⟨claim_C2.1 [("a")] [] [] [] relGhost ("a") ("ghost") (by decide) (by decide)
      (by decide) (by decide),
   claim_C2.2.2 cpTrue lpNone powq0 dataC2ok
     (by intro g hg; simp [groupsOf, dataC2ok] at hg)
     ⟨12, by decide⟩ ⟨1000000, by decide⟩ ⟨0, by decide⟩⟩

theorem all2_length {α β : Type} {f : α → β → Bool} :
    ∀ {as : List α} {bs : List β}, all2 f as bs = true → as.length = bs.length := by
  intro as
  induction as with
  | nil =>
    intro bs h
    cases bs with
    | nil => rfl
    | cons b bs => exact absurd h (by simp [all2])
  | cons a as ih =>
    intro bs h
    cases bs with
    | nil => exact absurd h (by simp [all2])
    | cons b bs =>
      simp only [all2, Bool.and_eq_true] at h
      simp [ih h.2]

theorem all2_get {α β : Type} {f : α → β → Bool} :
    ∀ {as : List α} {bs : List β}, all2 f as bs = true →
      ∀ (i : ℕ) (h1 : i < as.length) (h2 : i < bs.length),
        f (as.get ⟨i, h1⟩) (bs.get ⟨i, h2⟩) = true := by
  intro as
  induction as with
  | nil => intro bs h i h1 h2; exact absurd h1 (by simp)
  | cons a as ih =>
    intro bs h i h1 h2
    cases bs with
    | nil => exact absurd h (by simp [all2])
    | cons b bs =>
      simp only [all2, Bool.and_eq_true] at h
      cases i with
      | zero => exact h.1
      | succ j =>
        exact ih h.2 j (Nat.lt_of_succ_lt_succ h1) (Nat.lt_of_succ_lt_succ h2)

theorem lpFeasible_parts (p : LPProb) (s : LPSol)
    (h : lpFeasibleB p s = true) :
    all2 (fun b hi => decide (0 ≤ b ∧ b ≤ hi)) s.buys p.boundsBuy = true ∧
      all2 (fun q hi => decide (0 ≤ q ∧ q ≤ hi)) s.sells p.boundsSell = true ∧
      ∀ row ∈ p.payoffCoeffs,
        payoffDot row s.buys s.sells
            - costDot p.buyCosts p.sellRevs s.buys s.sells ≥ s.profit := by
  unfold lpFeasibleB at h
  simp only [Bool.and_eq_true] at h
  refine ⟨h.1.1.1.1.1, h.1.1.1.1.2, ?_⟩
  intro row hrow
  have := List.all_eq_true.mp h.2 row hrow
  simpa using this

theorem buildLPProb_inv (powq : ℚ → ℚ → ℚ) (tokens : List Token) (s : Settings)
    (outcomes : List Outcome) (prob : LPProb)
    (h : buildLPProb powq tokens s outcomes = .ok prob) :
    prob.boundsBuy = tokens.map (fun t => (adjSizes (allowSellsS s) t).1) ∧
      prob.boundsSell = tokens.map (fun t => (adjSizes (allowSellsS s) t).2) ∧
      prob.buyCosts = tokens.map (buyCostOf powq s) ∧
      prob.sellRevs = tokens.map (sellRevOf powq s) ∧
      prob.payoffCoeffs = outcomes.map (fun o => tokens.map (coeffQ o)) := by
  unfold buildLPProb at h
  cases hml : pyInt (maxLegsExpr s) with
  | error e => rw [hml] at h; exact absurd h (by simp)
  | ok n =>
    rw [hml] at h
    dsimp only at h
    injection h with h'
    subst h'
    exact ⟨rfl, rfl, rfl, rfl, rfl⟩

theorem solve_portfolio_inv (lp : LPOracle) (powq : ℚ → ℚ → ℚ)
    (outcomes : List Outcome) (tokens : List Token) (s : Settings)
    (profit : ℚ) (positions : List Position) (cost : ℚ)
    (h : _solve_portfolio lp powq outcomes tokens s
      = .ok (some (profit, positions, cost))) :
    ∃ prob sol, buildLPProb powq tokens s outcomes = .ok prob ∧
      lp.solve prob = some sol ∧ profit = sol.profit ∧
      positions = mkPositions tokens sol.buys sol.sells ∧
      cost = costDot prob.buyCosts prob.sellRevs sol.buys sol.sells := by
  unfold _solve_portfolio at h
  split at h
  · exact absurd h (by simp)
  · cases hb : buildLPProb powq tokens s outcomes with
    | error e => rw [hb] at h; exact absurd h (by simp)
    | ok prob =>
      rw [hb] at h
      dsimp only at h
      cases hs : lp.solve prob with
      | none => rw [hs] at h; exact absurd h (by simp)
      | some sol =>
        rw [hs] at h
        injection h with h'
        injection h' with h''
        refine ⟨prob, sol, rfl, hs, ?_, ?_, ?_⟩
        · exact (congrArg (fun x : ℚ × List Position × ℚ => x.1) h'').symm
        · exact (congrArg (fun x : ℚ × List Position × ℚ => x.2.1) h'').symm
        · exact (congrArg (fun x : ℚ × List Position × ℚ => x.2.2) h'').symm

theorem eps9_pos : (0 : ℚ) < eps9 := by norm_num [eps9]

theorem eps8_pos : (0 : ℚ) < eps8 := by norm_num [eps8]

theorem coeffQ_mem_Icc (o : Outcome) (t : Token) :
    coeffQ o t = 0 ∨ coeffQ o t = 1 := by
  unfold coeffQ bq
  by_cases hY : t.outcome = ("YES") <;> cases hb : oget o t.conditionId <;>
    simp [hY, hb]

theorem mkPositions_mem :
    ∀ (ts : List Token) (bs ss : List ℚ) (p : Position),
      p ∈ mkPositions ts bs ss →
      ∃ (i : ℕ) (h1 : i < ts.length) (h2 : i < bs.length) (h3 : i < ss.length),
        p = mkPos (ts.get ⟨i, h1⟩) (bs.get ⟨i, h2⟩) (ss.get ⟨i, h3⟩) ∧
          ¬(bs.get ⟨i, h2⟩ ≤ eps9 ∧ ss.get ⟨i, h3⟩ ≤ eps9) := by
  intro ts
  induction ts with
  | nil => intro bs ss p hp; exact absurd hp (by simp [mkPositions])
  | cons t ts ih =>
    intro bs ss p hp
    cases bs with
    | nil => exact absurd hp (by simp [mkPositions])
    | cons b bs =>
      cases ss with
      | nil => exact absurd hp (by simp [mkPositions])
      | cons s ss =>
        unfold mkPositions at hp
        by_cases hd : b ≤ eps9 ∧ s ≤ eps9
        · rw [if_pos hd] at hp
          obtain ⟨i, h1, h2, h3, heq, hnd⟩ := ih bs ss p hp
          exact ⟨i + 1, Nat.succ_lt_succ h1, Nat.succ_lt_succ h2,
            Nat.succ_lt_succ h3, heq, hnd⟩
        · rw [if_neg hd] at hp
          rcases List.mem_cons.mp hp with rfl | hp'
          · exact ⟨0, Nat.succ_pos _, Nat.succ_pos _, Nat.succ_pos _, rfl, hd⟩
          · obtain ⟨i, h1, h2, h3, heq, hnd⟩ := ih bs ss p hp'
            exact ⟨i + 1, Nat.succ_lt_succ h1, Nat.succ_lt_succ h2,
              Nat.succ_lt_succ h3, heq, hnd⟩

theorem mkPositions_length :
    ∀ (ts : List Token) (bs ss : List ℚ), bs.length = ts.length →
      ss.length = ts.length →
      (mkPositions ts bs ss).length + droppedN ts bs ss = ts.length := by
  intro ts
  induction ts with
  | nil => intro bs ss _ _; simp [mkPositions, droppedN]
  | cons t ts ih =>
    intro bs ss hb hs
    cases bs with
    | nil => exact absurd hb (by simp)
    | cons b bs =>
      cases ss with
      | nil => exact absurd hs (by simp)
      | cons s ss =>
        simp only [List.length_cons, Nat.succ.injEq] at hb hs
        unfold mkPositions droppedN
        by_cases hd : b ≤ eps9 ∧ s ≤ eps9
        · rw [if_pos hd, if_pos hd]
          have := ih bs ss hb hs
          simp only [List.length_cons]
          omega
        · rw [if_neg hd, if_neg hd]
          have := ih bs ss hb hs
          simp only [List.length_cons]
          omega

theorem payoff_filter_ge (o : Outcome) :
    ∀ (ts : List Token) (bs ss : List ℚ),
      (∀ x ∈ ss, 0 ≤ x) →
      payoffDot (ts.map (coeffQ o)) bs ss
        ≤ _evaluate_payoff (mkPositions ts bs ss) o
          + (droppedN ts bs ss : ℚ) * eps9 := by
  intro ts
  induction ts with
  | nil =>
    intro bs ss _
    simp [payoffDot, mkPositions, droppedN, _evaluate_payoff]
  | cons t ts ih =>
    intro bs ss hss
    cases bs with
    | nil =>
      simp only [List.map_cons]
      unfold payoffDot mkPositions droppedN
      simp [_evaluate_payoff]
    | cons b bs =>
      cases ss with
      | nil =>
        simp only [List.map_cons]
        unfold payoffDot mkPositions droppedN
        simp [_evaluate_payoff]
      | cons s ss =>
        have hs0 : 0 ≤ s := hss s (List.mem_cons_self s ss)
        have hss' : ∀ x ∈ ss, 0 ≤ x := fun x hx => hss x (List.mem_cons_of_mem s hx)
        have ihr := ih bs ss hss'
        simp only [List.map_cons]
        unfold payoffDot mkPositions droppedN
        by_cases hd : b ≤ eps9 ∧ s ≤ eps9
        · rw [if_pos hd, if_pos hd]
          have hterm : (b - s) * coeffQ o t ≤ eps9 := by
            rcases coeffQ_mem_Icc o t with hc | hc
            · rw [hc]
              simpa using le_of_lt eps9_pos
            · rw [hc]
              nlinarith [hd.1]
          push_cast
          nlinarith [ihr]
        · rw [if_neg hd, if_neg hd]
          have hterm : (if (mkPos t b s).outcome = ("YES") then
              (mkPos t b s).delta * bq (oget o (mkPos t b s).conditionId)
            else (mkPos t b s).delta * (1 - bq (oget o (mkPos t b s).conditionId)))
              = (b - s) * coeffQ o t := by
            show (if t.outcome = ("YES") then (b - s) * bq (oget o t.conditionId)
              else (b - s) * (1 - bq (oget o t.conditionId))) = _
            unfold coeffQ
            by_cases hY : t.outcome = ("YES")
            · rw [if_pos hY, if_pos hY]
            · rw [if_neg hY, if_neg hY]
          show (b - s) * coeffQ o t + payoffDot (ts.map (coeffQ o)) bs ss ≤
            _evaluate_payoff (mkPos t b s :: mkPositions ts bs ss) o + _
          unfold _evaluate_payoff
          rw [hterm]
          push_cast
          nlinarith [ihr]

theorem solve_portfolio_bestInv (lp : LPOracle) (powq : ℚ → ℚ → ℚ)
    (outcomes : List Outcome) (tokens : List Token) (s : Settings)
    (profit : ℚ) (positions : List Position) (cost : ℚ)
    (hlp : lpContract lp)
    (h : _solve_portfolio lp powq outcomes tokens s
      = .ok (some (profit, positions, cost))) :
    (∀ o ∈ outcomes, _evaluate_payoff positions o - cost ≥
        profit - (((tokens.length : ℚ) - (positions.length : ℚ)) * eps9)) ∧
      (∀ p ∈ positions, PosOk tokens (allowSellsS s) p) := by
  obtain ⟨prob, sol, hbuild, hsolve, hprofit, hpos, hcost⟩ :=
    solve_portfolio_inv lp powq outcomes tokens s profit positions cost h
  obtain ⟨hbb, hbs, hbc, hsr, hpc⟩ :=
    buildLPProb_inv powq tokens s outcomes prob hbuild
  have hfeas := hlp prob sol hsolve
  obtain ⟨hB, hS, hP⟩ := lpFeasible_parts prob sol hfeas
  obtain ⟨bb, bsl, bc, srv, asks, pcf, ml, mn⟩ := prob
  dsimp only at hbb hbs hbc hsr hpc hB hS hP hcost
  subst hbb hbs hbc hsr hpc
  have hlenB : sol.buys.length = tokens.length := by
    have := all2_length hB
    simpa using this
  have hlenS : sol.sells.length = tokens.length := by
    have := all2_length hS
    simpa using this
  have hBi : ∀ (i : ℕ) (h1 : i < tokens.length) (h2 : i < sol.buys.length),
      0 ≤ sol.buys.get ⟨i, h2⟩ ∧
        sol.buys.get ⟨i, h2⟩ ≤ (adjSizes (allowSellsS s) (tokens.get ⟨i, h1⟩)).1 := by
    intro i h1 h2
    have h3 : i < (tokens.map (fun t => (adjSizes (allowSellsS s) t).1)).length := by
      simpa using h1
    have := all2_get hB i h2 h3
    rw [decide_eq_true_iff] at this
    rw [List.get_map] at this
    exact this
  have hSi : ∀ (i : ℕ) (h1 : i < tokens.length) (h3 : i < sol.sells.length),
      0 ≤ sol.sells.get ⟨i, h3⟩ ∧
        sol.sells.get ⟨i, h3⟩ ≤ (adjSizes (allowSellsS s) (tokens.get ⟨i, h1⟩)).2 := by
    intro i h1 h3
    have h4 : i < (tokens.map (fun t => (adjSizes (allowSellsS s) t).2)).length := by
      simpa using h1
    have := all2_get hS i h3 h4
    rw [decide_eq_true_iff] at this
    rw [List.get_map] at this
    exact this
  have hsnn : ∀ x ∈ sol.sells, 0 ≤ x := by
    intro x hx
    obtain ⟨⟨i, hi⟩, hgx⟩ := List.mem_iff_get.mp hx
    have h1 : i < tokens.length := by omega
    rw [← hgx]
    exact (hSi i h1 hi).1
  constructor
  · intro o ho
    have hrow : tokens.map (coeffQ o)
        ∈ outcomes.map (fun o => tokens.map (coeffQ o)) :=
      List.mem_map.mpr ⟨o, ho, rfl⟩
    have hineq := hP (tokens.map (coeffQ o)) hrow
    have hge := payoff_filter_ge o tokens sol.buys sol.sells hsnn
    have hlen := mkPositions_length tokens sol.buys sol.sells hlenB hlenS
    have hcast : ((mkPositions tokens sol.buys sol.sells).length : ℚ)
        + (droppedN tokens sol.buys sol.sells : ℚ) = (tokens.length : ℚ) := by
      exact_mod_cast congrArg (fun n : ℕ => (n : ℚ)) hlen
    rw [hpos, hcost, hprofit]
    have hde : ((tokens.length : ℚ)
          - ((mkPositions tokens sol.buys sol.sells).length : ℚ)) * eps9
        = (droppedN tokens sol.buys sol.sells : ℚ) * eps9 := by
      rw [← hcast]
      ring
    linarith [hge, hineq, hde]
  · intro p hp
    rw [hpos] at hp
    obtain ⟨i, h1, h2, h3, heq, hnd⟩ := mkPositions_mem tokens sol.buys sol.sells p hp
    refine ⟨tokens.get ⟨i, h1⟩, List.get_mem tokens i h1, ?_, ?_, ?_, ?_, ?_⟩
    · rw [heq]; rfl
    · rw [heq]
      exact (hBi i h1 h2).1
    · rw [heq]
      exact (hBi i h1 h2).2
    · rw [heq]
      exact (hSi i h1 h3).1
    · rw [heq]
      exact (hSi i h1 h3).2

theorem bestUpd_inv (st : LoopState) (profit : ℚ) (positions : List Position)
    (cost : ℚ) (filtered : List Token) (allowS : Bool)
    (hinv : BestInv filtered allowS st.best)
    (hnew1 : ∀ o ∈ st.outcomes, _evaluate_payoff positions o - cost ≥
        profit - (((filtered.length : ℚ) - (positions.length : ℚ)) * eps9))
    (hnew2 : ∀ p ∈ positions, PosOk filtered allowS p) :
    BestInv filtered allowS (bestUpd st profit positions cost) := by
  unfold bestUpd
  by_cases hgt : profit > st.best.profit
  · rw [if_pos hgt]
    exact ⟨hnew1, hnew2⟩
  · rw [if_neg hgt]
    exact hinv

theorem loopBody_bestInv (cp : CPOracle) (lp : LPOracle) (powq : ℚ → ℚ → ℚ)
    (condIds : List String) (groups : List RawGroup) (rels : List RawRel)
    (filtered : List Token) (s : Settings) (timeout tol : ℚ) (scale : ℤ)
    (st : LoopState) (c : Bool) (st' : LoopState) (hlp : lpContract lp)
    (h : loopBody cp lp powq condIds groups rels filtered s timeout tol scale st
      = .ok (c, st'))
    (hinv : BestInv filtered (allowSellsS s) st.best) :
    BestInv filtered (allowSellsS s) st'.best := by
  unfold loopBody at h
  cases hp : _solve_portfolio lp powq st.outcomes filtered s with
  | error e => rw [hp] at h; exact absurd h (by simp)
  | ok r =>
    rw [hp] at h
    cases r with
    | none =>
      injection h with h'
      injection h' with h1 h2
      subst h2
      exact hinv
    | some trip =>
      obtain ⟨profit, positions, cost⟩ := trip
      dsimp only at h
      obtain ⟨hnew1, hnew2⟩ := solve_portfolio_bestInv lp powq st.outcomes
        filtered s profit positions cost hlp hp
      have hres := bestUpd_inv st profit positions cost filtered (allowSellsS s)
        hinv hnew1 hnew2
      cases hw : _solve_worst_outcome cp condIds groups rels positions timeout scale with
      | error e => rw [hw] at h; exact absurd h (by simp)
      | ok w =>
        rw [hw] at h
        cases w with
        | none =>
          injection h with h'
          injection h' with h1 h2
          subst h2
          exact hres
        | some worst =>
          dsimp only at h
          split at h
          · injection h with h'
            injection h' with h1 h2
            subst h2
            exact hres
          · injection h with h'
            injection h' with h1 h2
            subst h2
            exact hres

theorem runLoop_bestInv (cp : CPOracle) (lp : LPOracle) (powq : ℚ → ℚ → ℚ)
    (condIds : List String) (groups : List RawGroup) (rels : List RawRel)
    (filtered : List Token) (s : Settings) (timeout tol : ℚ) (scale : ℤ)
    (hlp : lpContract lp) :
    ∀ (fuel : ℕ) (st stF : LoopState) (n : ℕ) (exh : Bool),
      runLoop cp lp powq condIds groups rels filtered s timeout tol scale fuel st
        = .ok (stF, n, exh) →
      BestInv filtered (allowSellsS s) st.best →
      BestInv filtered (allowSellsS s) stF.best := by
  intro fuel
  induction fuel with
  | zero =>
    intro st stF n exh h hinv
    unfold runLoop at h
    injection h with h'
    injection h' with h1 h2
    subst h1
    exact hinv
  | succ m ih =>
    intro st stF n exh h hinv
    unfold runLoop at h
    cases hb : loopBody cp lp powq condIds groups rels filtered s timeout tol scale st with
    | error e => rw [hb] at h; exact absurd h (by simp)
    | ok pr =>
      rw [hb] at h
      obtain ⟨cont, st'⟩ := pr
      have hstep := loopBody_bestInv cp lp powq condIds groups rels filtered s
        timeout tol scale st cont st' hlp hb hinv
      cases cont with
      | false =>
        injection h with h'
        injection h' with h1 h2
        subst h1
        exact hstep
      | true =>
        dsimp only at h
        cases hr : runLoop cp lp powq condIds groups rels filtered s timeout tol scale m st' with
        | error e => rw [hr] at h; exact absurd h (by simp)
        | ok trip =>
          rw [hr] at h
          obtain ⟨stF', n', exh'⟩ := trip
          injection h with h'
          injection h' with h1 h2
          subst h1
          exact ih st' stF' n' exh' hr hstep

theorem mainCore_bestInv (cp : CPOracle) (lp : LPOracle) (powq : ℚ → ℚ → ℚ)
    (d : InputData) (mp : ℚ) (best : BestState) (hlp : lpContract lp)
    (h : mainCore cp lp powq d = .ok (.inr (mp, best))) :
    BestInv (filteredOf d) (allowSellsS (settingsOf d)) best
      ∧ mp = minProfitOf d := by
  unfold mainCore at h
  split at h
  · exact absurd h (by simp)
  · split at h
    · exact absurd h (by simp)
    · split at h
      · exact absurd h (by simp)
      · cases hmi : pyInt ((settingsOf d).maxIter.getD (JVal.jnum 12)) with
        | error e => rw [hmi] at h; exact absurd h (by simp)
        | ok mi =>
          rw [hmi] at h
          dsimp only at h
          cases hsc : pyInt ((settingsOf d).scale.getD (JVal.jnum 1000000)) with
          | error e => rw [hsc] at h; exact absurd h (by simp)
          | ok sc =>
            rw [hsc] at h
            dsimp only at h
            cases hseed : seedOutcomes cp (condIdsOf d) (groupsOf d)
                (relationsOf d) (oracleTimeoutOf d) with
            | error e => rw [hseed] at h; exact absurd h (by simp)
            | ok outcomes =>
              rw [hseed] at h
              dsimp only at h
              split at h
              · exact absurd h (by simp)
              · cases hrun : runLoop cp lp powq (condIdsOf d) (groupsOf d)
                    (relationsOf d) (filteredOf d) (settingsOf d)
                    (oracleTimeoutOf d) (tolOf d) sc mi.toNat
                    { best := { profit := -1000000000, positions := [],
                                cost := 0, outcomesSnap := outcomes },
                      outcomes := outcomes } with
                | error e => rw [hrun] at h; exact absurd h (by simp)
                | ok trip =>
                  rw [hrun] at h
                  obtain ⟨stF, n, exh⟩ := trip
                  injection h with h'
                  injection h' with h''
                  have hinit : BestInv (filteredOf d) (allowSellsS (settingsOf d))
                      { profit := -1000000000, positions := [], cost := 0,
                        outcomesSnap := outcomes } := by
                    constructor
                    · intro o ho
                      have h1 : (0 : ℚ) ≤ ((filteredOf d).length : ℚ) :=
                        Nat.cast_nonneg _
                      have h2 := eps9_pos
                      show _evaluate_payoff [] o - 0 ≥
                        -1000000000 - ((((filteredOf d).length : ℚ)
                          - (([] : List Position).length : ℚ)) * eps9)
                      unfold _evaluate_payoff
                      simp only [List.length_nil, Nat.cast_zero, sub_zero]
                      nlinarith
                    · intro p hp
                      exact absurd hp (by simp)
                  have := runLoop_bestInv cp lp powq (condIdsOf d) (groupsOf d)
                    (relationsOf d) (filteredOf d) (settingsOf d)
                    (oracleTimeoutOf d) (tolOf d) sc hlp mi.toNat _ stF n exh
                    hrun hinit
                  have hbest : best = stF.best :=
                    (congrArg (fun x : ℚ × BestState => x.2) h'').symm
                  have hmp : mp = minProfitOf d :=
                    (congrArg (fun x : ℚ × BestState => x.1) h'').symm
                  subst hbest
                  exact ⟨this, hmp⟩

theorem mainOn_opps (cp : CPOracle) (lp : LPOracle) (powq : ℚ → ℚ → ℚ)
    (d : InputData) (opps : List Opportunity)
    (h : mainOn cp lp powq d = .ok (.ok opps)) :
    opps = [] ∨ ∃ mp best, mainCore cp lp powq d = .ok (.inr (mp, best)) ∧
      ¬best.profit < mp ∧ opps = [mkOpp best] := by
  unfold mainOn at h
  cases hmc : mainCore cp lp powq d with
  | error e => rw [hmc] at h; exact absurd h (by simp)
  | ok v =>
    rw [hmc] at h
    cases v with
    | inl env0 =>
      injection h with h'
      rcases mainCore_inl cp lp powq d env0 hmc with h1 | h1 | h1
      · rw [h1] at h'; exact absurd h' (by simp)
      · rw [h1] at h'
        injection h' with h''
        exact Or.inl h''.symm
      · rw [h1] at h'; exact absurd h' (by simp)
    | inr pr =>
      obtain ⟨mp, best⟩ := pr
      dsimp only at h
      split at h
      · injection h with h'
        injection h' with h''
        exact Or.inl h''.symm
      · rename_i hge
        injection h with h'
        injection h' with h''
        exact Or.inr ⟨mp, best, rfl, hge, h''.symm⟩

theorem mkLegs_mem :
    ∀ (ps : List Position) (leg : Leg), leg ∈ mkLegs ps →
      ∃ p ∈ ps, leg.tokenId = p.tokenId ∧
        ((leg.side = ("BUY") ∧ eps8 < p.buy) ∨
          (leg.side = ("SELL") ∧ eps8 < p.sell)) := by
  intro ps
  induction ps with
  | nil => intro leg h; exact absurd h (by simp [mkLegs])
  | cons p ps ih =>
    intro leg h
    unfold mkLegs at h
    rw [List.mem_append, List.mem_append] at h
    rcases h with (h | h) | h
    · by_cases hb : p.buy > eps8
      · rw [if_pos hb] at h
        rcases List.mem_singleton.mp h with rfl
        exact ⟨p, List.mem_cons_self p ps, rfl, Or.inl ⟨rfl, hb⟩⟩
      · rw [if_neg hb] at h
        exact absurd h (by simp)
    · by_cases hs : p.sell > eps8
      · rw [if_pos hs] at h
        rcases List.mem_singleton.mp h with rfl
        exact ⟨p, List.mem_cons_self p ps, rfl, Or.inr ⟨rfl, hs⟩⟩
      · rw [if_neg hs] at h
        exact absurd h (by simp)
    · obtain ⟨q, hq, hleg⟩ := ih leg h
      exact ⟨q, List.mem_cons_of_mem p hq, hleg⟩

theorem filterTok_tokenId (md mdu : ℚ) (allowS : Bool) (src tok' : Token)
    (h : filterTok md mdu allowS src = some tok') :
    tok'.tokenId = src.tokenId := by
  unfold filterTok at h
  dsimp only at h
  split at h
  · injection h with h'
    rw [← h']
  · exact absurd h (by simp)

theorem filterTok_shallow_ask (md mdu : ℚ) (allowS : Bool) (src tok' : Token)
    (h : filterTok md mdu allowS src = some tok')
    (hs : sfGet src.askSize 0 < md ∨
      (mdu > 0 ∧ sfGet src.ask 0 * sfGet src.askSize 0 < mdu)) :
    tok'.askSize = some (JVal.jnum 0) := by
  unfold filterTok at h
  dsimp only at h
  split at h
  · injection h with h'
    rw [← h']
    show some (JVal.jnum _) = some (JVal.jnum 0)
    congr 1
    by_cases h1 : sfGet src.askSize 0 < md
    · rw [if_pos h1]
      by_cases h2 : mdu > 0 ∧ sfGet src.ask 0 * (0 : ℚ) < mdu
      · rw [if_pos h2]
      · rw [if_neg h2]
    · rw [if_neg h1]
      rcases hs with hs | hs
      · exact absurd hs h1
      · rw [if_pos hs]
  · exact absurd h (by simp)

theorem filterTok_shallow_bid (md mdu : ℚ) (allowS : Bool) (src tok' : Token)
    (h : filterTok md mdu allowS src = some tok')
    (hs : sfGet src.bidSize 0 < md ∨
      (mdu > 0 ∧ sfGet src.bid 0 * sfGet src.bidSize 0 < mdu)) :
    tok'.bidSize = some (JVal.jnum 0) := by
  unfold filterTok at h
  dsimp only at h
  split at h
  · injection h with h'
    rw [← h']
    show some (JVal.jnum _) = some (JVal.jnum 0)
    congr 1
    by_cases h1 : sfGet src.bidSize 0 < md ∨ allowS = false
    · rw [if_pos h1]
      by_cases h2 : mdu > 0 ∧ sfGet src.bid 0 * (0 : ℚ) < mdu
      · rw [if_pos h2]
      · rw [if_neg h2]
    · rw [if_neg h1]
      rcases hs with hs | hs
      · exact absurd (Or.inl hs) h1
      · rw [if_pos hs]
  · exact absurd h (by simp)

theorem adjAsk_zero (allowS : Bool) (t : Token)
    (h : t.askSize = some (JVal.jnum 0)) : (adjSizes allowS t).1 = 0 := by
  unfold adjSizes sfGet
  rw [h]
  show (if sfGet t.ask 0 ≤ 0 then (0 : ℚ) else _safe_float (JVal.jnum 0) 0) = 0
  split
  · rfl
  · rfl

theorem adjBid_zero_of_size (allowS : Bool) (t : Token)
    (h : t.bidSize = some (JVal.jnum 0)) : (adjSizes allowS t).2 = 0 := by
  unfold adjSizes sfGet
  rw [h]
  show (if allowS then
      (if sfGet t.bid 0 ≤ 0 then (0 : ℚ) else _safe_float (JVal.jnum 0) 0)
    else 0) = 0
  split
  · split
    · rfl
    · rfl
  · rfl

theorem adjBid_zero_of_noSells (t : Token) : (adjSizes false t).2 = 0 := by
  unfold adjSizes
  rfl

theorem lpC1_contract : lpContract lpC1 := by
  intro p s h
  by_cases hp : p = probC1
  · subst hp
    have hs : lpC1.solve probC1 = some solC1 := by
      show (if probC1 = probC1 then some solC1 else none) = some solC1
      rw [if_pos rfl]
    rw [hs] at h
    injection h with h'
    subst h'
    decide
  · have hn : lpC1.solve p = none := by
      show (if p = probC1 then some solC1 else none) = none
      rw [if_neg hp]
    rw [hn] at h
    exact absurd h (by simp)

theorem lpW_contract : lpContract lpW := by
  intro p s h
  by_cases hp : p = probW
  · subst hp
    have hs : lpW.solve probW = some solW := by
      show (if probW = probW then some solW else none) = some solW
      rw [if_pos rfl]
    rw [hs] at h
    injection h with h'
    subst h'
    decide
  · have hn : lpW.solve p = none := by
      show (if p = probW then some solW else none) = none
      rw [if_neg hp]
    rw [hn] at h
    exact absurd h (by simp)

theorem lpC10_contract : lpContract lpC10 := by
  intro p s h
  by_cases hp : p = probC10
  · subst hp
    have hs : lpC10.solve probC10 = some solC10 := by
      show (if probC10 = probC10 then some solC10 else none) = some solC10
      rw [if_pos rfl]
    rw [hs] at h
    injection h with h'
    subst h'
    decide
  · have hn : lpC10.solve p = none := by
      show (if p = probC10 then some solC10 else none) = none
      rw [if_neg hp]
    rw [hn] at h
    exact absurd h (by simp)

/-- C1 (amended): for any feasibility-respecting LP backend, whenever the
pipeline reaches the acceptance check, the recorded best candidate satisfies,
for every Outcome of its Scenario-Set snapshot,
`payoff(emitted positions) - cost ≥ guaranteedProfit - k * 1e-9` where `k` is
the number of solver allocations suppressed by the `1e-9` output filter
(`k = #filteredTokens - #positions`); and when it passes the minimum-profit
check the emitted opportunity carries exactly the recorded profit, cost, legs
and the Scenario-Set snapshot taken when that candidate was recorded.  (The
claim's bound `≥ guaranteedProfit - tolerance` follows whenever
`tolerance ≥ k * 1e-9`, but fails in general, see the counterexample with
tolerance 0.) -/
theorem claim_C1 (cp : CPOracle) (lp : LPOracle) (powq : ℚ → ℚ → ℚ)
    (d : InputData) (mp : ℚ) (best : BestState) (hlp : lpContract lp)
    (h : mainCore cp lp powq d = .ok (.inr (mp, best))) :
    (∀ o ∈ best.outcomesSnap,
      _evaluate_payoff best.positions o - best.cost ≥
        best.profit - ((((filteredOf d).length : ℚ)
          - (best.positions.length : ℚ)) * eps9)) ∧
      (¬best.profit < mp → mainOn cp lp powq d = .ok (.ok [mkOpp best])) := by
  obtain ⟨hinv, hmp⟩ := mainCore_bestInv cp lp powq d mp best hlp h
  refine ⟨hinv.1, fun hge => ?_⟩
  unfold mainOn
  rw [h]
  dsimp only
  rw [if_neg hge]

/-- Counterexample to C1 as stated: on `dataC1` (tolerance 0) with
feasibility-respecting backends, the printed opportunity certifies profit 0
over Scenario Set `[outC]`, yet the payoff of the emitted positions minus the
emitted cost is `-1e-9 < guaranteedProfit - tolerance = 0`: the buy of `1e-9`
was suppressed by the output filter while its cost was not. -/
theorem claim_C1_cex :
    mainOn cpTrue lpC1 powq0 dataC1 = .ok (.ok [mkOpp bestC1]) ∧
      lpContract lpC1 ∧
      outC ∈ (mkOpp bestC1).outcomes ∧
      _evaluate_payoff bestC1.positions outC - (mkOpp bestC1).cost
        < (mkOpp bestC1).guaranteedProfit - tolOf dataC1 :=
  ⟨by decide, lpC1_contract, by decide, by decide⟩

/-- Witness for C1 on the `dataC1` run: the recorded candidate satisfies the
amended bound at `outC` and is emitted. -/
theorem claim_C1_witness :
    _evaluate_payoff bestC1.positions outC - bestC1.cost ≥
        bestC1.profit - ((((filteredOf dataC1).length : ℚ)
          - (bestC1.positions.length : ℚ)) * eps9) ∧
      mainOn cpTrue lpC1 powq0 dataC1 = .ok (.ok [mkOpp bestC1]) :=
  ⟨(claim_C1 cpTrue lpC1 powq0 dataC1 (-1) bestC1 lpC1_contract (by decide)).1
      outC (by decide),
   (claim_C1 cpTrue lpC1 powq0 dataC1 (-1) bestC1 lpC1_contract (by decide)).2
      (by decide)⟩

/-- C6: tokens whose ask depth is below `minDepth`, or whose ask notional is
below a positive `minDepthUsd`, never produce a BUY leg in the printed result
(their filtered depth is zero, so the LP bound forces a zero buy allocation);
symmetrically for bid depth/notional and SELL legs.  Token identity is by
`tokenId` (assumed unique across the payload). -/
theorem claim_C6 (cp : CPOracle) (lp : LPOracle) (powq : ℚ → ℚ → ℚ)
    (d : InputData) (env : Envelope) (t : Token) (hlp : lpContract lp)
    (hnd : ((tokensOf d).map Token.tokenId).Nodup)
    (ht : t ∈ tokensOf d)
    (h : mainOn cp lp powq d = .ok env) :
    ((sfGet t.askSize 0 < minDepthOf d ∨
        (minDepthUsdOf d > 0 ∧
          sfGet t.ask 0 * sfGet t.askSize 0 < minDepthUsdOf d)) →
      ∀ opps, env = .ok opps → ∀ opp ∈ opps, ∀ leg ∈ opp.legs,
        ¬(leg.side = ("BUY") ∧ leg.tokenId = t.tokenId)) ∧
      ((sfGet t.bidSize 0 < minDepthOf d ∨
        (minDepthUsdOf d > 0 ∧
          sfGet t.bid 0 * sfGet t.bidSize 0 < minDepthUsdOf d)) →
      ∀ opps, env = .ok opps → ∀ opp ∈ opps, ∀ leg ∈ opp.legs,
        ¬(leg.side = ("SELL") ∧ leg.tokenId = t.tokenId)) := by
  constructor
  · intro hs opps hopps opp hopp leg hleg ⟨hside, htid⟩
    subst hopps
    rcases mainOn_opps cp lp powq d opps h with rfl | ⟨mp, best, hmc, hge, rfl⟩
    · exact absurd hopp (by simp)
    · rcases List.mem_singleton.mp hopp with rfl
      obtain ⟨hinv, _⟩ := mainCore_bestInv cp lp powq d mp best hlp hmc
      obtain ⟨p, hp, htid2, hdis⟩ := mkLegs_mem best.positions leg hleg
      obtain ⟨tf, htf, htid3, hb0, hble, _, _⟩ := hinv.2 p hp
      rcases hdis with ⟨_, hbuy⟩ | ⟨hsell, _⟩
      · obtain ⟨src, hsrc, hft⟩ := List.mem_filterMap.mp htf
        have hid : src.tokenId = t.tokenId := by
          rw [← filterTok_tokenId _ _ _ _ _ hft, ← htid3, ← htid2, htid]
        have hst : src = t :=
          List.inj_on_of_nodup_map hnd hsrc ht hid
        subst hst
        have hz : tf.askSize = some (JVal.jnum 0) :=
          filterTok_shallow_ask _ _ _ _ _ hft hs
        have := adjAsk_zero (allowSellsS (settingsOf d)) tf hz
        rw [this] at hble
        have := eps8_pos
        linarith
      · rw [hside] at hsell
        exact absurd hsell (by decide)
  · intro hs opps hopps opp hopp leg hleg ⟨hside, htid⟩
    subst hopps
    rcases mainOn_opps cp lp powq d opps h with rfl | ⟨mp, best, hmc, hge, rfl⟩
    · exact absurd hopp (by simp)
    · rcases List.mem_singleton.mp hopp with rfl
      obtain ⟨hinv, _⟩ := mainCore_bestInv cp lp powq d mp best hlp hmc
      obtain ⟨p, hp, htid2, hdis⟩ := mkLegs_mem best.positions leg hleg
      obtain ⟨tf, htf, htid3, _, _, hs0, hsle⟩ := hinv.2 p hp
      rcases hdis with ⟨hbuy, _⟩ | ⟨_, hsell⟩
      · rw [hside] at hbuy
        exact absurd hbuy (by decide)
      · obtain ⟨src, hsrc, hft⟩ := List.mem_filterMap.mp htf
        have hid : src.tokenId = t.tokenId := by
          rw [← filterTok_tokenId _ _ _ _ _ hft, ← htid3, ← htid2, htid]
        have hst : src = t :=
          List.inj_on_of_nodup_map hnd hsrc ht hid
        subst hst
        have hz : tf.bidSize = some (JVal.jnum 0) :=
          filterTok_shallow_bid _ _ _ _ _ hft hs
        have := adjBid_zero_of_size (allowSellsS (settingsOf d)) tf hz
        rw [this] at hsle
        have := eps8_pos
        linarith

/-- Witness for C6 on `dataW`: the shallow token `t2` (depth 1 < minDepth 5)
is not the token behind the single (BUY t1) leg of the printed result. -/
theorem claim_C6_witness :
    ¬(legW1.side = ("BUY") ∧ legW1.tokenId = tokShallow.tokenId) ∧
      ¬(legW1.side = ("SELL") ∧ legW1.tokenId = tokShallow.tokenId) :=
  ⟨(claim_C6 cpTrue lpW powq0 dataW (Envelope.ok [mkOpp bestW]) tokShallow
      lpW_contract (by decide) (by decide) (by decide)).1 (by decide)
      [mkOpp bestW] rfl (mkOpp bestW) (by decide) legW1 (by decide),
   (claim_C6 cpTrue lpW powq0 dataW (Envelope.ok [mkOpp bestW]) tokShallow
      lpW_contract (by decide) (by decide) (by decide)).2 (by decide)
      [mkOpp bestW] rfl (mkOpp bestW) (by decide) legW1 (by decide)⟩

/-- C10: with `allowSells: false` the printed result never contains a SELL
leg: depth filtering zeroes every bid size, the LP sell bounds collapse to
zero for any feasibility-respecting backend, and only sell quantities above
the `1e-8` output epsilon could produce SELL legs. -/
theorem claim_C10 (cp : CPOracle) (lp : LPOracle) (powq : ℚ → ℚ → ℚ)
    (d : InputData) (env : Envelope) (hlp : lpContract lp)
    (hs : (settingsOf d).allowSells = some (JVal.jbool false))
    (h : mainOn cp lp powq d = .ok env) :
    ∀ opps, env = .ok opps → ∀ opp ∈ opps, ∀ leg ∈ opp.legs,
      leg.side ≠ ("SELL") := by
  have hfalse : allowSellsS (settingsOf d) = false := by
    unfold allowSellsS
    rw [hs]
    rfl
  intro opps hopps opp hopp leg hleg hside
  subst hopps
  rcases mainOn_opps cp lp powq d opps h with rfl | ⟨mp, best, hmc, hge, rfl⟩
  · exact absurd hopp (by simp)
  · rcases List.mem_singleton.mp hopp with rfl
    obtain ⟨hinv, _⟩ := mainCore_bestInv cp lp powq d mp best hlp hmc
    obtain ⟨p, hp, _, hdis⟩ := mkLegs_mem best.positions leg hleg
    obtain ⟨tf, htf, _, _, _, _, hsle⟩ := hinv.2 p hp
    rcases hdis with ⟨hbuy, _⟩ | ⟨_, hsell⟩
    · rw [hside] at hbuy
      exact absurd hbuy (by decide)
    · rw [hfalse, adjBid_zero_of_noSells tf] at hsle
      have := eps8_pos
      linarith

/-- Witness for C10 on `dataC10` (`allowSells: false`, a two-sided token):
the single emitted leg is not a SELL leg. -/
theorem claim_C10_witness : legC10a.side ≠ ("SELL") :=
  claim_C10 cpTrue lpC10 powq0 dataC10 (Envelope.ok [mkOpp bestC10])
    lpC10_contract (by rfl) (by decide) [mkOpp bestC10] rfl (mkOpp bestC10)
    (by decide) legC10a (by decide)

theorem safe_float_none (v : JVal) (h : pyFloat v = none) :
    ∀ dflt, _safe_float v dflt = dflt := by
  intro dflt
  cases v with
  | jnull => rfl
  | jbool b => exact absurd h (by simp [pyFloat])
  | jnum q => exact absurd h (by simp [pyFloat])
  | jstrInt n => exact absurd h (by simp [pyFloat])
  | jstrFloat q => exact absurd h (by simp [pyFloat])
  | jstrBad s => show (pyFloat (JVal.jstrBad s)).getD dflt = dflt; rw [h]; rfl
  | jarr ne => show (pyFloat (JVal.jarr ne)).getD dflt = dflt; rw [h]; rfl
  | jobj ne => show (pyFloat (JVal.jobj ne)).getD dflt = dflt; rw [h]; rfl

theorem tokEquiv_refl (t : Token) : tokEquiv t t :=
  ⟨rfl, rfl, rfl, rfl, rfl, rfl, rfl, rfl, rfl⟩

theorem forall₂_tokEquiv_refl : ∀ l : List Token, List.Forall₂ tokEquiv l l := by
  intro l
  induction l with
  | nil => exact List.Forall₂.nil
  | cons t ts ih => exact List.Forall₂.cons (tokEquiv_refl t) ih

theorem map_congr_forall₂ {α β : Type} {R : α → α → Prop} {f g : α → β} :
    ∀ {l l' : List α}, List.Forall₂ R l l' → (∀ a b, R a b → f a = g b) →
      l.map f = l'.map g := by
  intro l l' h hfg
  induction h with
  | nil => rfl
  | cons hab _ ih => simp [hfg _ _ hab, ih]

theorem adjSizes_congr (allowS : Bool) (t t' : Token) (h : tokEquiv t t') :
    adjSizes allowS t = adjSizes allowS t' := by
  obtain ⟨_, _, _, h4, h5, h6, h7, _, _⟩ := h
  unfold adjSizes
  rw [h4, h5, h6, h7]

theorem buyCostOf_congr (powq : ℚ → ℚ → ℚ) (s s' : Settings) (t t' : Token)
    (ht : tokEquiv t t') (hs : settingsUsedEq s s') :
    buyCostOf powq s t = buyCostOf powq s' t' := by
  obtain ⟨_, _, _, h4, _, _, _, h8, _⟩ := ht
  obtain ⟨_, _, _, _, _, _, _, _, _, _, s11, s12, s13, s14⟩ := hs
  unfold buyCostOf
  rw [h4, h8, s11, s12, s13, s14]

theorem sellRevOf_congr (powq : ℚ → ℚ → ℚ) (s s' : Settings) (t t' : Token)
    (ht : tokEquiv t t') (hs : settingsUsedEq s s') :
    sellRevOf powq s t = sellRevOf powq s' t' := by
  obtain ⟨_, _, _, _, h5, _, _, h8, _⟩ := ht
  obtain ⟨_, _, _, _, _, _, _, _, _, _, s11, s12, s13, s14⟩ := hs
  unfold sellRevOf
  rw [h5, h8, s11, s12, s13, s14]

theorem coeffQ_congr (o : Outcome) (t t' : Token) (h : tokEquiv t t') :
    coeffQ o t = coeffQ o t' := by
  obtain ⟨_, h2, h3, _⟩ := h
  unfold coeffQ
  rw [h2, h3]

theorem mkPos_congr (t t' : Token) (h : tokEquiv t t') (b s : ℚ) :
    mkPos t b s = mkPos t' b s := by
  obtain ⟨h1, h2, h3, h4, h5, _, _, h8, h9⟩ := h
  unfold mkPos
  rw [h1, h2, h3, h4, h5, h8, h9]

theorem mkPositions_congr :
    ∀ {toks toks' : List Token}, List.Forall₂ tokEquiv toks toks' →
      ∀ (bs ss : List ℚ), mkPositions toks bs ss = mkPositions toks' bs ss := by
  intro toks toks' h
  induction h with
  | nil => intro bs ss; rfl
  | cons hab htail ih =>
    intro bs ss
    cases bs with
    | nil => rfl
    | cons b bs =>
      cases ss with
      | nil => rfl
      | cons s ss =>
        unfold mkPositions
        rw [ih bs ss, mkPos_congr _ _ hab b s]

theorem filterTok_congr (md mdu : ℚ) (allowS : Bool) (t t' : Token)
    (h : tokEquiv t t') :
    (filterTok md mdu allowS t = none ∧ filterTok md mdu allowS t' = none) ∨
      (∃ u u', filterTok md mdu allowS t = some u ∧
        filterTok md mdu allowS t' = some u' ∧ tokEquiv u u') := by
  obtain ⟨h1, h2, h3, h4, h5, h6, h7, h8, h9⟩ := h
  unfold filterTok
  rw [h4, h5, h6, h7]
  by_cases hkeep : sfGet t'.ask 0 > 0 ∨ sfGet t'.bid 0 > 0
  · rw [if_pos hkeep, if_pos hkeep]
    refine Or.inr ⟨_, _, rfl, rfl, ?_⟩
    exact ⟨h1, h2, h3, h4, h5, by rfl, by rfl, h8, h9⟩
  · rw [if_neg hkeep, if_neg hkeep]
    exact Or.inl ⟨rfl, rfl⟩

theorem filterTokens_congr (md mdu : ℚ) (allowS : Bool) :
    ∀ {toks toks' : List Token}, List.Forall₂ tokEquiv toks toks' →
      List.Forall₂ tokEquiv (filterTokens md mdu allowS toks)
        (filterTokens md mdu allowS toks') := by
  intro toks toks' h
  induction h with
  | nil => exact List.Forall₂.nil
  | cons hab htail ih =>
    rename_i a b as bs
    unfold filterTokens at ih ⊢
    simp only [List.filterMap_cons]
    rcases filterTok_congr md mdu allowS a b hab with ⟨hn, hn'⟩ | ⟨u, u', hu, hu', huv⟩
    · rw [hn, hn']
      exact ih
    · rw [hu, hu']
      exact List.Forall₂.cons huv ih

theorem buildLPProb_congr (powq : ℚ → ℚ → ℚ) {toks toks' : List Token}
    (s s' : Settings) (outcomes : List Outcome)
    (htok : List.Forall₂ tokEquiv toks toks') (hs : settingsUsedEq s s') :
    buildLPProb powq toks s outcomes = buildLPProb powq toks' s' outcomes := by
  have hml := hs.2.2.2.2.2.2.2.2.1
  have hmn := hs.2.2.2.2.2.2.2.2.2.1
  have hallow := hs.2.2.2.1
  unfold buildLPProb
  rw [hml]
  cases pyInt (maxLegsExpr s') with
  | error e => rfl
  | ok n =>
    dsimp only
    congr 1
    have e1 : toks.map (fun t => (adjSizes (allowSellsS s) t).1)
        = toks'.map (fun t => (adjSizes (allowSellsS s') t).1) :=
      map_congr_forall₂ htok fun a b hab => by
        rw [hallow, adjSizes_congr (allowSellsS s') a b hab]
    have e2 : toks.map (fun t => (adjSizes (allowSellsS s) t).2)
        = toks'.map (fun t => (adjSizes (allowSellsS s') t).2) :=
      map_congr_forall₂ htok fun a b hab => by
        rw [hallow, adjSizes_congr (allowSellsS s') a b hab]
    have e3 : toks.map (buyCostOf powq s) = toks'.map (buyCostOf powq s') :=
      map_congr_forall₂ htok fun a b hab => buyCostOf_congr powq s s' a b hab hs
    have e4 : toks.map (sellRevOf powq s) = toks'.map (sellRevOf powq s') :=
      map_congr_forall₂ htok fun a b hab => sellRevOf_congr powq s s' a b hab hs
    have e5 : toks.map (fun t => sfGet t.ask 0) = toks'.map (fun t => sfGet t.ask 0) :=
      map_congr_forall₂ htok fun a b hab => hab.2.2.2.1
    have e6 : outcomes.map (fun o => toks.map (coeffQ o))
        = outcomes.map (fun o => toks'.map (coeffQ o)) := by
      apply List.map_congr_left
      intro o _
      exact map_congr_forall₂ htok fun a b hab => coeffQ_congr o a b hab
    rw [e1, e2, e3, e4, e5, e6, hmn]

theorem solve_portfolio_congr (lp : LPOracle) (powq : ℚ → ℚ → ℚ)
    (outcomes : List Outcome) {toks toks' : List Token} (s s' : Settings)
    (htok : List.Forall₂ tokEquiv toks toks') (hs : settingsUsedEq s s') :
    _solve_portfolio lp powq outcomes toks s
      = _solve_portfolio lp powq outcomes toks' s' := by
  unfold _solve_portfolio
  by_cases hav : lp.available = false
  · rw [if_pos hav, if_pos hav]
  · rw [if_neg hav, if_neg hav]
    rw [buildLPProb_congr powq s s' outcomes htok hs]
    cases buildLPProb powq toks' s' outcomes with
    | error e => rfl
    | ok prob =>
      dsimp only
      cases lp.solve prob with
      | none => rfl
      | some sol =>
        dsimp only
        rw [mkPositions_congr htok sol.buys sol.sells]

theorem loopBody_congr (cp : CPOracle) (lp : LPOracle) (powq : ℚ → ℚ → ℚ)
    (condIds : List String) (groups : List RawGroup) (rels : List RawRel)
    {filtered filtered' : List Token} (s s' : Settings) (timeout tol : ℚ)
    (scale : ℤ) (hfil : List.Forall₂ tokEquiv filtered filtered')
    (hs : settingsUsedEq s s') (st : LoopState) :
    loopBody cp lp powq condIds groups rels filtered s timeout tol scale st
      = loopBody cp lp powq condIds groups rels filtered' s' timeout tol scale st := by
  unfold loopBody
  rw [solve_portfolio_congr lp powq st.outcomes s s' hfil hs]

theorem runLoop_congr (cp : CPOracle) (lp : LPOracle) (powq : ℚ → ℚ → ℚ)
    (condIds : List String) (groups : List RawGroup) (rels : List RawRel)
    {filtered filtered' : List Token} (s s' : Settings) (timeout tol : ℚ)
    (scale : ℤ) (hfil : List.Forall₂ tokEquiv filtered filtered')
    (hs : settingsUsedEq s s') :
    ∀ (fuel : ℕ) (st : LoopState),
      runLoop cp lp powq condIds groups rels filtered s timeout tol scale fuel st
        = runLoop cp lp powq condIds groups rels filtered' s' timeout tol scale fuel st := by
  intro fuel
  induction fuel with
  | zero => intro st; rfl
  | succ m ih =>
    intro st
    unfold runLoop
    rw [loopBody_congr cp lp powq condIds groups rels s s' timeout tol scale
      hfil hs st]
    cases loopBody cp lp powq condIds groups rels filtered' s' timeout tol scale st with
    | error e => rfl
    | ok pr =>
      obtain ⟨c, st'⟩ := pr
      cases c with
      | false => rfl
      | true =>
        dsimp only
        rw [ih st']

theorem mainCore_congr (cp : CPOracle) (lp : LPOracle) (powq : ℚ → ℚ → ℚ)
    (d d' : InputData) (htr : d.truthy = d'.truthy)
    (hcond : d.conditions = d'.conditions) (hgr : d.groups = d'.groups)
    (hrel : d.relations = d'.relations)
    (htok : List.Forall₂ tokEquiv (tokensOf d) (tokensOf d'))
    (hs : settingsUsedEq (settingsOf d) (settingsOf d')) :
    mainCore cp lp powq d = mainCore cp lp powq d' := by
  have hcid : condIdsOf d = condIdsOf d' := by unfold condIdsOf; rw [hcond]
  have hgro : groupsOf d = groupsOf d' := by unfold groupsOf; rw [hgr]
  have hrelo : relationsOf d = relationsOf d' := by unfold relationsOf; rw [hrel]
  have hmp : minProfitOf d = minProfitOf d' := hs.1
  have hmd : minDepthOf d = minDepthOf d' := hs.2.1
  have hmdu : minDepthUsdOf d = minDepthUsdOf d' := hs.2.2.1
  have hallow : allowSellsS (settingsOf d) = allowSellsS (settingsOf d') :=
    hs.2.2.2.1
  have hot : oracleTimeoutOf d = oracleTimeoutOf d' := hs.2.2.2.2.1
  have hmi := hs.2.2.2.2.2.1
  have htl : tolOf d = tolOf d' := hs.2.2.2.2.2.2.1
  have hscc := hs.2.2.2.2.2.2.2.1
  have hfil : List.Forall₂ tokEquiv (filteredOf d) (filteredOf d') := by
    unfold filteredOf
    rw [hmd, hmdu, hallow]
    exact filterTokens_congr _ _ _ htok
  unfold mainCore
  rw [htr, hcid, hgro, hrelo, hot, htl, hmp, hmi, hscc]
  by_cases h1 : d'.truthy = false
  · rw [if_pos h1, if_pos h1]
  · rw [if_neg h1, if_neg h1]
    by_cases h2 : (condIdsOf d').length = 0
    · rw [if_pos h2, if_pos h2]
    · rw [if_neg h2, if_neg h2]
      by_cases h3 : filteredOf d = []
      · have h3' : filteredOf d' = [] := by
          rw [h3] at hfil
          exact (List.forall₂_nil_left_iff.mp hfil)
        rw [if_pos h3, if_pos h3']
      · have h3' : filteredOf d' ≠ [] := by
          intro hh
          rw [hh] at hfil
          exact h3 (List.forall₂_nil_right_iff.mp hfil)
        rw [if_neg h3, if_neg h3']
        cases pyInt ((settingsOf d').maxIter.getD (JVal.jnum 12)) with
        | error e => rfl
        | ok mi =>
          dsimp only
          cases pyInt ((settingsOf d').scale.getD (JVal.jnum 1000000)) with
          | error e => rfl
          | ok sc =>
            dsimp only
            cases seedOutcomes cp (condIdsOf d') (groupsOf d') (relationsOf d')
                (oracleTimeoutOf d') with
            | error e => rfl
            | ok outcomes =>
              dsimp only
              by_cases h4 : outcomes = []
              · rw [if_pos h4, if_pos h4]
              · rw [if_neg h4, if_neg h4]
                rw [runLoop_congr cp lp powq (condIdsOf d') (groupsOf d')
                  (relationsOf d') (settingsOf d) (settingsOf d')
                  (oracleTimeoutOf d') (tolOf d') sc hfil hs mi.toNat]

theorem mainOn_congr (cp : CPOracle) (lp : LPOracle) (powq : ℚ → ℚ → ℚ)
    (d d' : InputData) (htr : d.truthy = d'.truthy)
    (hcond : d.conditions = d'.conditions) (hgr : d.groups = d'.groups)
    (hrel : d.relations = d'.relations)
    (htok : List.Forall₂ tokEquiv (tokensOf d) (tokensOf d'))
    (hs : settingsUsedEq (settingsOf d) (settingsOf d')) :
    mainOn cp lp powq d = mainOn cp lp powq d' := by
  unfold mainOn
  rw [mainCore_congr cp lp powq d d' htr hcond hgr hrel htok hs]

theorem sfGet_none0 (v : JVal) (h : pyFloat v = none) :
    sfGet (some v) 0 = sfGet none 0 := by
  show _safe_float v 0 = _safe_float (JVal.jnum 0) 0
  rw [safe_float_none v h 0]
  rfl

theorem settingsUsedEq_refl (s : Settings) : settingsUsedEq s s :=
  ⟨rfl, rfl, rfl, rfl, rfl, rfl, rfl, rfl, rfl, rfl, rfl, rfl, rfl, rfl⟩

theorem forall₂_tokEquiv_app :
    ∀ {l1 l2 : List Token}, List.Forall₂ tokEquiv l1 l2 →
      ∀ {l3 l4 : List Token}, List.Forall₂ tokEquiv l3 l4 →
        List.Forall₂ tokEquiv (l1 ++ l3) (l2 ++ l4) := by
  intro l1 l2 h
  induction h with
  | nil => intro l3 l4 h34; exact h34
  | cons hab _ ih => intro l3 l4 h34; exact List.Forall₂.cons hab (ih h34)

theorem quoteUpd_equiv (f : QField) (t : Token) (v : JVal)
    (h : pyFloat v = none) :
    tokEquiv (quoteUpd f t (some v)) (quoteUpd f t none) := by
  cases f with
  | ask => exact ⟨rfl, rfl, rfl, sfGet_none0 v h, rfl, rfl, rfl, rfl, rfl⟩
  | bid => exact ⟨rfl, rfl, rfl, rfl, sfGet_none0 v h, rfl, rfl, rfl, rfl⟩
  | askSize => exact ⟨rfl, rfl, rfl, rfl, rfl, sfGet_none0 v h, rfl, rfl, rfl⟩
  | bidSize => exact ⟨rfl, rfl, rfl, rfl, rfl, rfl, sfGet_none0 v h, rfl, rfl⟩
  | feeBps => exact ⟨rfl, rfl, rfl, rfl, rfl, rfl, rfl, sfGet_none0 v h, rfl⟩

/-- C3 (amended): a missing or non-numeric `minProfit` or `minDepth` settings
value behaves exactly like the default (the `_safe_float` coercion maps both
to 0.0 without raising), and likewise a missing or non-numeric value of any
quote field of any token — the program's behaviour is unchanged when such a
value is replaced by an absent field.  (As stated the claim is false:
`maxIter`, `maxLegs`, `scale` and a group's `k` are converted with `int(...)`,
which raises on non-numeric values, see the counterexample.) -/
theorem claim_C3 :
    (∀ (cp : CPOracle) (lp : LPOracle) (powq : ℚ → ℚ → ℚ) (d : InputData)
       (v : JVal), pyFloat v = none →
       mainOn cp lp powq (updMinProfit d (some v))
         = mainOn cp lp powq (updMinProfit d none)) ∧
      (∀ (cp : CPOracle) (lp : LPOracle) (powq : ℚ → ℚ → ℚ) (d : InputData)
        (v : JVal), pyFloat v = none →
        mainOn cp lp powq (updMinDepth d (some v))
          = mainOn cp lp powq (updMinDepth d none)) ∧
      (∀ (cp : CPOracle) (lp : LPOracle) (powq : ℚ → ℚ → ℚ) (d : InputData)
        (f : QField) (pre post : List Token) (t : Token) (v : JVal),
        pyFloat v = none →
        mainOn cp lp powq (setTokens d (pre ++ quoteUpd f t (some v) :: post))
          = mainOn cp lp powq (setTokens d (pre ++ quoteUpd f t none :: post))) := by
  refine ⟨?_, ?_, ?_⟩
  · intro cp lp powq d v h
    exact mainOn_congr cp lp powq _ _ rfl rfl rfl rfl
      (forall₂_tokEquiv_refl _)
      ⟨sfGet_none0 v h, rfl, rfl, rfl, rfl, rfl, rfl, rfl, rfl, rfl, rfl, rfl,
        rfl, rfl⟩
  · intro cp lp powq d v h
    exact mainOn_congr cp lp powq _ _ rfl rfl rfl rfl
      (forall₂_tokEquiv_refl _)
      ⟨rfl, sfGet_none0 v h, rfl, rfl, rfl, rfl, rfl, rfl, rfl, rfl, rfl, rfl,
        rfl, rfl⟩
  · intro cp lp powq d f pre post t v h
    exact mainOn_congr cp lp powq _ _ rfl rfl rfl rfl
      (forall₂_tokEquiv_app (forall₂_tokEquiv_refl pre)
        (List.Forall₂.cons (quoteUpd_equiv f t v h) (forall₂_tokEquiv_refl post)))
      (settingsUsedEq_refl _)

/-- Counterexample to C3 as stated: `dataC3bad` carries the non-numeric
setting `maxIter: "x"`; `int(settings.get("maxIter", 12))` raises
`ValueError` instead of coercing to the default. -/
theorem claim_C3_cex :
    mainOn cpTrue lpNone powq0 dataC3bad = .error .valueError := by
  decide

/-- Witness for C3: replacing `minProfit` by a non-numeric string, or the ask
of a token by a non-numeric string, behaves exactly like omitting the field. -/
theorem claim_C3_witness :
    mainOn cpTrue lpNone powq0 (updMinProfit dataW (some (JVal.jstrBad ("x"))))
        = mainOn cpTrue lpNone powq0 (updMinProfit dataW none) ∧
      mainOn cpTrue lpNone powq0
          (setTokens dataW
            ([] ++ quoteUpd QField.ask tokDeep (some (JVal.jstrBad ("x"))) :: [tokShallow]))
        = mainOn cpTrue lpNone powq0
          (setTokens dataW ([] ++ quoteUpd QField.ask tokDeep none :: [tokShallow])) :=
  ⟨claim_C3.1 cpTrue lpNone powq0 dataW (JVal.jstrBad ("x")) (by rfl),
   claim_C3.2.2 cpTrue lpNone powq0 dataW QField.ask [] [tokShallow] tokDeep
     (JVal.jstrBad ("x")) (by rfl)⟩
